import Mathlib

/-!
Verification development for the obsidian-canvas-copilot core:
the streaming tag extractor (CanvasOperationStreamer.ts), the canvas
operation executor (canvasTools), and the canvas loader's containment
deriver (CanvasLoader.ts).

Strings are modelled as lists of characters.  JavaScript numbers that can
be NaN (results of parseInt) are modelled as `Option Int` with `none`
standing for NaN.  External effects (vault write success, the
Date.now/Math.random edge-id generator, crypto.randomUUID) are modelled as
explicit parameters.
-/

namespace CanvasCopilot

abbrev Chars := List Char

/- ---------- character classes (JavaScript definitions) ---------- -/

/-- JS whitespace class used by the regex escape for spaces and by trim. -/
def isJsSpace (c : Char) : Bool :=
  c = ' ' || c = '\t' || c = '\n' || c = '\r' || c = '\x0b' || c = '\x0c' ||
  c = '\u00a0' || c = '\ufeff' || c = '\u1680' ||
  ('\u2000' ≤ c && c ≤ '\u200a') ||
  c = '\u2028' || c = '\u2029' || c = '\u202f' || c = '\u205f' || c = '\u3000'

/-- JS word-character class (ASCII letters, digits, underscore). -/
def isWordChar (c : Char) : Bool :=
  c.isAlphanum || c = '_'

/- ---------- basic list-of-char utilities ---------- -/

/-- Does `s` start with the literal `pat`? -/
def litAt : Chars → Chars → Bool
  | [], _ => true
  | _ :: _, [] => false
  | p :: ps, c :: cs => p = c && litAt ps cs

/-- Index of the first occurrence of character `ch`. -/
def idxOfChar (ch : Char) : Chars → Option Nat
  | [] => none
  | c :: cs => if c = ch then some 0 else (idxOfChar ch cs).map Nat.succ

/-- Index of the first occurrence of the literal `pat` as a contiguous block. -/
def idxOfLit (pat : Chars) : Chars → Option Nat
  | [] => if pat = [] then some 0 else none
  | c :: cs => if litAt pat (c :: cs) then some 0 else (idxOfLit pat cs).map Nat.succ

/-- Remove the first occurrence of the literal `pat` (models
    JavaScript `String.replace(pat, emptyString)` with a string pattern). -/
def removeFirstLit (pat : Chars) (s : Chars) : Chars :=
  match idxOfLit pat s with
  | some i => s.take i ++ s.drop (i + pat.length)
  | none => s

/-- Split at the first double quote: returns the part before it and the rest
    after it. -/
def splitAtQuote : Chars → Option (Chars × Chars)
  | [] => none
  | c :: cs =>
    if c = '"' then some ([], cs)
    else (splitAtQuote cs).map (fun pr => (c :: pr.1, pr.2))

/-- JS parseInt with radix 10: skip leading whitespace, optional sign, then a
    maximal run of decimal digits; `none` models NaN. -/
def digitsVal (s : Chars) : Option Nat :=
  let ds := s.takeWhile Char.isDigit
  if ds = [] then none
  else some (ds.foldl (fun a c => a * 10 + (c.toNat - 48)) 0)

/-- JS parseInt with radix 10 on a character list; `none` models NaN. -/
def jsParseInt (s : Chars) : Option Int :=
  match s.dropWhile isJsSpace with
  | '-' :: rest => (digitsVal rest).map (fun n => -(n : Int))
  | '+' :: rest => (digitsVal rest).map (fun n => (n : Int))
  | t => (digitsVal t).map (fun n => (n : Int))

/-- JS String.trim (strips the whitespace class from both ends). -/
def jsTrim (s : Chars) : Chars :=
  ((s.dropWhile isJsSpace).reverse.dropWhile isJsSpace).reverse

/- ---------- attribute parsing (parseAttributes) ---------- -/

/-- Try to read one attribute at the head of `s`: a nonempty word-character
    run, then an equals sign and a quote, then the value up to the closing
    quote.  Returns key, value and the rest after the closing quote. -/
def attrAt (s : Chars) : Option (Chars × Chars × Chars) :=
  let key := s.takeWhile isWordChar
  if key = [] then none
  else
    match s.drop key.length with
    | '=' :: '"' :: rest =>
      match splitAtQuote rest with
      | some (v, rest2) => some (key, v, rest2)
      | none => none
    | _ => none

/-- Scan of the attribute regex over a tag body: at each position try to match
    an attribute; on success continue after its closing quote, otherwise move
    one character forward.  Fuel is the length of the scanned text. -/
def parseAttrsAux : Nat → Chars → List (Chars × Chars)
  | 0, _ => []
  | _, [] => []
  | fuel + 1, c :: cs =>
    if isWordChar c then
      match attrAt (c :: cs) with
      | some (k, v, rest) => (k, v) :: parseAttrsAux fuel rest
      | none => parseAttrsAux fuel cs
    else parseAttrsAux fuel cs

/-- All key/value attribute pairs of a tag body, in order of appearance. -/
def parseAttributes (s : Chars) : List (Chars × Chars) :=
  parseAttrsAux s.length s

/-- Lookup in the attribute map built from the pair list; later assignments
    overwrite earlier ones, as in a JS object. -/
def attrGet (attrs : List (Chars × Chars)) (k : Chars) : Option Chars :=
  attrs.foldl (fun acc pr => if pr.1 = k then some pr.2 else acc) none

/-- Truthy attribute access: an absent key and an empty value both read as
    falsy in JS, so both give `none`. -/
def attrTruthy (attrs : List (Chars × Chars)) (k : Chars) : Option Chars :=
  match attrGet attrs k with
  | some v => if v = [] then none else some v
  | none => none

/-- Truthiness of an optional string (JS: undefined and empty are falsy). -/
def truthyOpt (o : Option Chars) : Option Chars :=
  match o with
  | some v => if v = [] then none else some v
  | none => none

/- ---------- string literals used by the source ---------- -/

def kId : Chars := ("id").toList
def kType : Chars := ("type").toList
def kX : Chars := ("x").toList
def kY : Chars := ("y").toList
def kWidth : Chars := ("width").toList
def kHeight : Chars := ("height").toList
def kColor : Chars := ("color").toList
def kContent : Chars := ("content").toList
def kFile : Chars := ("file").toList
def kUrl : Chars := ("url").toList
def kLabel : Chars := ("label").toList
def kFrom : Chars := ("from").toList
def kTo : Chars := ("to").toList
def kFromSide : Chars := ("fromSide").toList
def kToSide : Chars := ("toSide").toList

def tagAddNode : Chars := ("add_node").toList
def tagUpdateNode : Chars := ("update_node").toList
def tagDeleteNode : Chars := ("delete_node").toList
def tagAddEdge : Chars := ("add_edge").toList
def tagDeleteEdge : Chars := ("delete_edge").toList
def closeAddNode : Chars := ("</add_node>").toList
def ltCanvasEdit : Chars := ("<canvas_edit").toList
def pathEqLit : Chars := ("path=\"").toList
def summaryEqLit : Chars := ("summary=\"").toList

def sZero : Chars := ("0").toList
def sTwoHundred : Chars := ("200").toList
def sHundred : Chars := ("100").toList

def tText : Chars := ("text").toList
def tFile : Chars := ("file").toList
def tLink : Chars := ("link").toList
def tGroup : Chars := ("group").toList
def sRight : Chars := ("right").toList
def sLeft : Chars := ("left").toList
def sContains : Chars := ("contains").toList

def dupMsg (i : Chars) : Chars :=
  ("Node with ID \"").toList ++ i ++ ("\" already exists").toList
def nodeNotFoundMsg (i : Chars) : Chars :=
  ("Node with ID \"").toList ++ i ++ ("\" not found").toList
def edgeNotFoundMsg (i : Chars) : Chars :=
  ("Edge with ID \"").toList ++ i ++ ("\" not found").toList
def srcNotFoundMsg (i : Chars) : Chars :=
  ("Source node \"").toList ++ i ++ ("\" not found").toList
def tgtNotFoundMsg (i : Chars) : Chars :=
  ("Target node \"").toList ++ i ++ ("\" not found").toList
def unknownTypeMsg (t : Chars) : Chars :=
  ("Unknown node type: ").toList ++ t
def fileReqMsg : Chars := ("File path required for file node").toList
def urlReqMsg : Chars := ("URL required for link node").toList
def writeFailMsg : Chars := ("Failed to write canvas file").toList

/- ---------- operation types (CanvasOperationStreamer.ts) ---------- -/

/-- Partial update payload of an update operation.  Geometry fields are
    present (`some`) exactly when the attribute occurred in the tag; the
    inner `Option Int` is the parseInt result with `none` for NaN. -/
structure NodeUpdates where
  x : Option (Option Int)
  y : Option (Option Int)
  width : Option (Option Int)
  height : Option (Option Int)
  content : Option Chars
  color : Option Chars
  label : Option Chars
deriving DecidableEq, Repr

/-- Typed canvas operation (the CanvasOperation union). -/
inductive COp where
  | addNode (id nodeType : Chars) (x y width height : Option Int)
      (color content file url label : Option Chars)
  | updateNode (id : Chars) (updates : NodeUpdates)
  | deleteNode (id : Chars)
  | addEdge (id fromNode toNode : Chars)
      (fromSide toSide label color : Option Chars)
  | deleteEdge (id : Chars)
deriving DecidableEq, Repr

/- ---------- the six tag-shape matchers ---------- -/

/-- Try to match a self-closing tag of the given name at the head of `s`:
    an opening angle bracket and the tag name, at least one whitespace
    character, then a nonempty slash-free attribute region ending at the
    first slash, which must be followed by a closing angle bracket.
    Returns the attribute region and the whole match length. -/
def matchSelfAt (tag : Chars) (s : Chars) : Option (Chars × Nat) :=
  if litAt ('<' :: tag) s then
    let after := s.drop (tag.length + 1)
    match after.head? with
    | some c =>
      if isJsSpace c then
        match idxOfChar '/' after with
        | some j =>
          if 2 ≤ j && litAt ['>'] (after.drop (j + 1)) then
            some (after.take j, tag.length + 1 + j + 2)
          else none
        | none => none
      else none
    | none => none
  else none

/-- Try to match the paired add_node tag at the head of `s`: tag name, at
    least one whitespace character, a nonempty attribute region ending at
    the first closing angle bracket, then inner content running up to the
    first occurrence of the closing tag.  Returns attribute region, inner
    content and the whole match length. -/
def matchContentAt (s : Chars) : Option (Chars × Chars × Nat) :=
  if litAt ('<' :: tagAddNode) s then
    let after := s.drop 9
    match after.head? with
    | some c =>
      if isJsSpace c then
        match idxOfChar '>' after with
        | some j =>
          if 2 ≤ j then
            let rest := after.drop (j + 1)
            match idxOfLit closeAddNode rest with
            | some k => some (after.take j, rest.take k, 9 + j + 1 + k + 11)
            | none => none
          else none
        | none => none
      else none
    | none => none
  else none

/-- Leftmost self-closing match: position, attribute region, match length. -/
def findSelf (tag : Chars) : Chars → Option (Nat × Chars × Nat)
  | [] => none
  | c :: cs =>
    match matchSelfAt tag (c :: cs) with
    | some (attrs, len) => some (0, attrs, len)
    | none => (findSelf tag cs).map (fun r => (r.1 + 1, r.2.1, r.2.2))

/-- Leftmost paired add_node match: position, attribute region, inner
    content, match length. -/
def findContent : Chars → Option (Nat × Chars × Chars × Nat)
  | [] => none
  | c :: cs =>
    match matchContentAt (c :: cs) with
    | some (attrs, inner, len) => some (0, attrs, inner, len)
    | none => (findContent cs).map (fun r => (r.1 + 1, r.2.1, r.2.2.1, r.2.2.2))

/- ---------- operation builders ---------- -/

/-- Build an add_node operation from parsed attributes; `inner` is the
    trimmed-later inner content for the paired form (`none` for the
    self-closing form).  Requires truthy id and type attributes. -/
def buildAddNode (attrs : List (Chars × Chars)) (inner : Option Chars) : Option COp :=
  match attrTruthy attrs kId, attrTruthy attrs kType with
  | some i, some t =>
    some (COp.addNode i t
      (jsParseInt ((attrTruthy attrs kX).getD sZero))
      (jsParseInt ((attrTruthy attrs kY).getD sZero))
      (jsParseInt ((attrTruthy attrs kWidth).getD sTwoHundred))
      (jsParseInt ((attrTruthy attrs kHeight).getD sHundred))
      (attrTruthy attrs kColor)
      (match inner with
       | some raw => (if jsTrim raw = [] then none else some (jsTrim raw))
       | none => none)
      (attrTruthy attrs kFile)
      (attrTruthy attrs kUrl)
      (attrTruthy attrs kLabel))
  | _, _ => none

/-- Build an update_node operation; geometry fields are present exactly when
    the attribute key occurs, and their value is the raw parseInt result. -/
def buildUpdateNode (attrs : List (Chars × Chars)) : Option COp :=
  match attrTruthy attrs kId with
  | some i =>
    some (COp.updateNode i
      { x := (attrGet attrs kX).map jsParseInt
        y := (attrGet attrs kY).map jsParseInt
        width := (attrGet attrs kWidth).map jsParseInt
        height := (attrGet attrs kHeight).map jsParseInt
        content := attrGet attrs kContent
        color := attrGet attrs kColor
        label := attrGet attrs kLabel })
  | none => none

/-- Build a delete_node operation (requires a truthy id). -/
def buildDeleteNode (attrs : List (Chars × Chars)) : Option COp :=
  match attrTruthy attrs kId with
  | some i => some (COp.deleteNode i)
  | none => none

/-- Build a delete_edge operation (requires a truthy id). -/
def buildDeleteEdge (attrs : List (Chars × Chars)) : Option COp :=
  match attrTruthy attrs kId with
  | some i => some (COp.deleteEdge i)
  | none => none

/-- Build an add_edge operation.  Requires truthy from and to attributes;
    when the id attribute is falsy a generated identifier is used, modelled
    by the external generator `gen` applied to a running counter. -/
def buildAddEdge (gen : Nat → Chars) (attrs : List (Chars × Chars)) (ctr : Nat) :
    Option COp × Nat :=
  match attrTruthy attrs kFrom, attrTruthy attrs kTo with
  | some f, some t =>
    match attrTruthy attrs kId with
    | some i =>
      (some (COp.addEdge i f t (attrTruthy attrs kFromSide) (attrTruthy attrs kToSide)
        (attrTruthy attrs kLabel) (attrTruthy attrs kColor)), ctr)
    | none =>
      (some (COp.addEdge (gen ctr) f t (attrTruthy attrs kFromSide) (attrTruthy attrs kToSide)
        (attrTruthy attrs kLabel) (attrTruthy attrs kColor)), ctr + 1)
  | _, _ => (none, ctr)

/-- Lift a counter-free builder to the stateful builder signature. -/
def liftB (b : List (Chars × Chars) → Option COp) :
    List (Chars × Chars) → Nat → Option COp × Nat :=
  fun attrs ctr => (b attrs, ctr)

/- ---------- per-shape scan loops ---------- -/

/-- Scan loop for one self-closing shape, mirroring the exec/replace loop:
    find the leftmost match at or after the last index; if the builder
    accepts the parsed attributes, remove the first occurrence of the
    matched text from the buffer, restart from index zero and emit the
    operation; otherwise continue after the match. -/
def passLoop (tag : Chars) (build : List (Chars × Chars) → Nat → Option COp × Nat) :
    Nat → Nat → Chars → Nat → List COp → List COp × Chars × Nat
  | 0, _, buf, ctr, acc => (acc, buf, ctr)
  | fuel + 1, lastIdx, buf, ctr, acc =>
    match findSelf tag (buf.drop lastIdx) with
    | none => (acc, buf, ctr)
    | some (p, attrsRegion, len) =>
      match build (parseAttributes attrsRegion) ctr with
      | (some op, ctr2) =>
        passLoop tag build fuel 0
          (removeFirstLit ((buf.drop (lastIdx + p)).take len) buf) ctr2 (acc ++ [op])
      | (none, ctr2) => passLoop tag build fuel (lastIdx + p + len) buf ctr2 acc

/-- Scan loop for the paired add_node shape. -/
def passContentLoop : Nat → Nat → Chars → List COp → List COp × Chars
  | 0, _, buf, acc => (acc, buf)
  | fuel + 1, lastIdx, buf, acc =>
    match findContent (buf.drop lastIdx) with
    | none => (acc, buf)
    | some (p, attrsRegion, inner, len) =>
      match buildAddNode (parseAttributes attrsRegion) (some inner) with
      | some op =>
        passContentLoop fuel 0
          (removeFirstLit ((buf.drop (lastIdx + p)).take len) buf) (acc ++ [op])
      | none => passContentLoop fuel (lastIdx + p + len) buf acc

/-- Extraction of all completed operations: the six shapes are scanned to
    exhaustion one at a time, in the fixed priority order of the source.
    Returns the emitted operations, the remaining buffer, and the edge-id
    generator counter. -/
def extractCompletedOperations (gen : Nat → Chars) (buf : Chars) (ctr : Nat) :
    List COp × Chars × Nat :=
  let fuel := buf.length + 1
  let r1 := passContentLoop fuel 0 buf []
  let r2 := passLoop tagAddNode (liftB (fun a => buildAddNode a none)) fuel 0 r1.2 ctr []
  let r3 := passLoop tagUpdateNode (liftB buildUpdateNode) fuel 0 r2.2.1 r2.2.2 []
  let r4 := passLoop tagDeleteNode (liftB buildDeleteNode) fuel 0 r3.2.1 r3.2.2 []
  let r5 := passLoop tagAddEdge (buildAddEdge gen) fuel 0 r4.2.1 r4.2.2 []
  let r6 := passLoop tagDeleteEdge (liftB buildDeleteEdge) fuel 0 r5.2.1 r5.2.2 []
  (r1.1 ++ r2.1 ++ r3.1 ++ r4.1 ++ r5.1 ++ r6.1, r6.2.1, r6.2.2)

/- ---------- canvas_edit header capture and chunk processing ---------- -/

/-- Try to match the canvas_edit opening tag at the head of `s`, capturing
    the mandatory nonempty path attribute and the optional summary. -/
def matchCanvasEditAt (s : Chars) : Option (Chars × Option Chars) :=
  if litAt ltCanvasEdit s then
    let after := s.drop 12
    let ws := after.takeWhile isJsSpace
    if ws = [] then none
    else
      let r1 := after.drop ws.length
      if litAt pathEqLit r1 then
        match splitAtQuote (r1.drop 6) with
        | some (pv, r3) =>
          if pv = [] then none
          else
            let ws2 := r3.takeWhile isJsSpace
            if ws2 = [] then some (pv, none)
            else
              let r4 := r3.drop ws2.length
              if litAt summaryEqLit r4 then
                match splitAtQuote (r4.drop 9) with
                | some (sv, _) => some (pv, some sv)
                | none => some (pv, none)
              else some (pv, none)
        | none => none
      else none
  else none

/-- Leftmost canvas_edit header match in the buffer. -/
def findCanvasEdit : Chars → Option (Chars × Option Chars)
  | [] => none
  | c :: cs =>
    match matchCanvasEditAt (c :: cs) with
    | some r => some r
    | none => findCanvasEdit cs

/-- State of the CanvasOperationStreamer. -/
structure StreamState where
  buffer : Chars
  canvasPath : Option Chars
  summary : Chars
  edgeCtr : Nat
deriving DecidableEq, Repr

/-- Fresh streamer state (also the result of reset). -/
def initState : StreamState := ⟨[], none, [], 0⟩

/-- One processChunk call: append the chunk, capture path and summary once,
    then extract and emit all completed operations. -/
def processChunk (gen : Nat → Chars) (st : StreamState) (chunk : Chars) :
    StreamState × List COp :=
  let buf := st.buffer ++ chunk
  let ps :=
    if st.canvasPath = none ∨ st.summary = [] then
      match findCanvasEdit buf with
      | some (p, sv) =>
        ((if st.canvasPath = none then some p else st.canvasPath),
         (if st.summary = [] then
            match sv with
            | some s => if s = [] then st.summary else s
            | none => st.summary
          else st.summary))
      | none => (st.canvasPath, st.summary)
    else (st.canvasPath, st.summary)
  let ex := extractCompletedOperations gen buf st.edgeCtr
  (⟨ex.2.1, ps.1, ps.2, ex.2.2⟩, ex.1)

/-- Feed a list of fragments one processChunk call at a time, accumulating
    the emitted operations in order. -/
def feedMany (gen : Nat → Chars) (st : StreamState) : List Chars → StreamState × List COp
  | [] => (st, [])
  | c :: cs =>
    let r1 := processChunk gen st c
    let r2 := feedMany gen r1.1 cs
    (r2.1, r1.2 ++ r2.2)


/- ---------- canvas executor (canvas tools module) ---------- -/

/-- Canvas node record: the flat union of the four node data shapes; the
    `ntype` field models the TS `type` discriminator.  Geometry fields are
    JS numbers (`none` models NaN). -/
structure CanvasNode where
  id : Chars
  ntype : Chars
  x : Option Int
  y : Option Int
  width : Option Int
  height : Option Int
  text : Option Chars
  file : Option Chars
  url : Option Chars
  label : Option Chars
  color : Option Chars
deriving DecidableEq, Repr

/-- Canvas edge record (CanvasEdgeData). -/
structure CanvasEdge where
  id : Chars
  fromNode : Chars
  toNode : Chars
  fromSide : Option Chars
  toSide : Option Chars
  label : Option Chars
  color : Option Chars
deriving DecidableEq, Repr

/-- The persisted canvas document (CanvasData). -/
structure CanvasData where
  nodes : List CanvasNode
  edges : List CanvasEdge
deriving DecidableEq, Repr

/-- Result of one executed operation (OperationResult). -/
structure OperationResult where
  success : Bool
  error : Option Chars
  affectedIds : Option (List Chars)
deriving DecidableEq, Repr

/-- Replace the first element satisfying `p` by its image under `f`
    (models findIndex followed by an in-place update; `none` when the
    index search returns minus one). -/
def updateFirst (p : α → Bool) (f : α → α) : List α → Option (List α)
  | [] => none
  | a :: as =>
    if p a then some (f a :: as)
    else (updateFirst p f as).map (fun l => a :: l)

/-- Remove the first element satisfying `p` (models findIndex followed by
    splice; `none` when the index search returns minus one). -/
def removeFirst (p : α → Bool) : List α → Option (List α)
  | [] => none
  | a :: as =>
    if p a then some as
    else (removeFirst p as).map (fun l => a :: l)

/-- The executeAddNode function: duplicate-id check, then a node record
    built according to the node type. -/
def executeAddNode (d : CanvasData) (id0 ntype0 : Chars) (x y w h : Option Int)
    (color content file url label : Option Chars) : OperationResult × CanvasData :=
  if d.nodes.any (fun n => n.id = id0) then
    (⟨false, some (dupMsg id0), none⟩, d)
  else if ntype0 = tText then
    (⟨true, none, some [id0]⟩,
     ⟨d.nodes ++ [⟨id0, tText, x, y, w, h, some (content.getD []), none, none, none, color⟩],
      d.edges⟩)
  else if ntype0 = tFile then
    match truthyOpt file with
    | none => (⟨false, some fileReqMsg, none⟩, d)
    | some _ =>
      (⟨true, none, some [id0]⟩,
       ⟨d.nodes ++ [⟨id0, tFile, x, y, w, h, none, file, none, none, color⟩], d.edges⟩)
  else if ntype0 = tLink then
    match truthyOpt url with
    | none => (⟨false, some urlReqMsg, none⟩, d)
    | some _ =>
      (⟨true, none, some [id0]⟩,
       ⟨d.nodes ++ [⟨id0, tLink, x, y, w, h, none, none, url, none, color⟩], d.edges⟩)
  else if ntype0 = tGroup then
    (⟨true, none, some [id0]⟩,
     ⟨d.nodes ++ [⟨id0, tGroup, x, y, w, h, none, none, none, label, color⟩], d.edges⟩)
  else
    (⟨false, some (unknownTypeMsg ntype0), none⟩, d)

/-- Field-by-field application of an update payload to a node, with the
    type gates of the source: content only mutates text nodes, label only
    mutates group nodes. -/
def applyUpdates (n : CanvasNode) (u : NodeUpdates) : CanvasNode :=
  let n1 : CanvasNode :=
    { n with
      x := u.x.getD n.x
      y := u.y.getD n.y
      width := u.width.getD n.width
      height := u.height.getD n.height
      color := match u.color with | some c => some c | none => n.color }
  let n2 : CanvasNode :=
    if n1.ntype = tText then
      match u.content with
      | some c => { n1 with text := some c }
      | none => n1
    else n1
  if n2.ntype = tGroup then
    match u.label with
    | some l => { n2 with label := some l }
    | none => n2
  else n2

/-- The executeUpdateNode function. -/
def executeUpdateNode (d : CanvasData) (id0 : Chars) (u : NodeUpdates) :
    OperationResult × CanvasData :=
  match updateFirst (fun n => n.id = id0) (fun n => applyUpdates n u) d.nodes with
  | none => (⟨false, some (nodeNotFoundMsg id0), none⟩, d)
  | some nodes2 => (⟨true, none, some [id0]⟩, ⟨nodes2, d.edges⟩)

/-- The executeDeleteNode function: remove the node, then filter out every
    edge touching it, collecting the removed edge ids in order. -/
def executeDeleteNode (d : CanvasData) (id0 : Chars) : OperationResult × CanvasData :=
  match removeFirst (fun n => n.id = id0) d.nodes with
  | none => (⟨false, some (nodeNotFoundMsg id0), none⟩, d)
  | some nodes2 =>
    let removedIds :=
      (d.edges.filter (fun e => e.fromNode = id0 || e.toNode = id0)).map (fun e => e.id)
    let edges2 := d.edges.filter (fun e => !(e.fromNode = id0 || e.toNode = id0))
    (⟨true, none, some (id0 :: removedIds)⟩, ⟨nodes2, edges2⟩)

/-- The executeAddEdge function: endpoint validation, then an edge record
    with side defaults. -/
def executeAddEdge (d : CanvasData) (id0 from0 to0 : Chars)
    (fromSide toSide label color : Option Chars) : OperationResult × CanvasData :=
  if !(d.nodes.any (fun n => n.id = from0)) then
    (⟨false, some (srcNotFoundMsg from0), none⟩, d)
  else if !(d.nodes.any (fun n => n.id = to0)) then
    (⟨false, some (tgtNotFoundMsg to0), none⟩, d)
  else
    (⟨true, none, some [id0]⟩,
     ⟨d.nodes,
      d.edges ++ [⟨id0, from0, to0,
        some ((truthyOpt fromSide).getD sRight),
        some ((truthyOpt toSide).getD sLeft), label, color⟩]⟩)

/-- The executeDeleteEdge function. -/
def executeDeleteEdge (d : CanvasData) (id0 : Chars) : OperationResult × CanvasData :=
  match removeFirst (fun e => e.id = id0) d.edges with
  | none => (⟨false, some (edgeNotFoundMsg id0), none⟩, d)
  | some edges2 => (⟨true, none, some [id0]⟩, ⟨d.nodes, edges2⟩)

/-- Dispatch of a single operation (the switch of the execution functions). -/
def execOp (d : CanvasData) : COp → OperationResult × CanvasData
  | COp.addNode i t x y w h c co f u l => executeAddNode d i t x y w h c co f u l
  | COp.updateNode i u => executeUpdateNode d i u
  | COp.deleteNode i => executeDeleteNode d i
  | COp.addEdge i f t fs ts l c => executeAddEdge d i f t fs ts l c
  | COp.deleteEdge i => executeDeleteEdge d i

/-- The for-loop of executeCanvasOperations: apply the operations strictly
    in sequence against the one shared document, collecting the
    per-operation results. -/
def runOps (d : CanvasData) : List COp → List OperationResult × CanvasData
  | [] => ([], d)
  | op :: rest =>
    let r1 := execOp d op
    let r2 := runOps r1.2 rest
    (r1.1 :: r2.1, r2.2)

/-- Downgrade applied to each result when the final write fails: successes
    become failures carrying the write-failure reason, failures are kept. -/
def downgradeResult (r : OperationResult) : OperationResult :=
  if r.success then { r with success := false, error := some writeFailMsg } else r

/-- Outcome of a batch: the result list, the allSuccess flag, the final
    in-memory document, and the log of write attempts made against the
    external storage (the write succeeds when `writeOk` holds). -/
structure BatchOutcome where
  results : List OperationResult
  allSuccess : Bool
  finalDoc : CanvasData
  writeAttempts : List CanvasData
deriving DecidableEq, Repr

/-- The executeCanvasOperations batch: run the loop, then write back once
    if at least one operation succeeded; a failed write downgrades every
    successful result and forces allSuccess to false.  The external write
    outcome is the `writeOk` parameter. -/
def executeCanvasOperations (writeOk : Bool) (d : CanvasData) (ops : List COp) :
    BatchOutcome :=
  let r := runOps d ops
  let allSuccess := r.1.all (fun x => x.success)
  if r.1.any (fun x => x.success) then
    if writeOk then ⟨r.1, allSuccess, r.2, [r.2]⟩
    else ⟨r.1.map downgradeResult, false, r.2, [r.2]⟩
  else ⟨r.1, allSuccess, r.2, []⟩

/- ---------- canvas loader (CanvasLoader.ts) ---------- -/

/-- Enriched node of the loader, with exact rational coordinates. -/
structure RichNode where
  id : Chars
  ntype : Chars
  x : ℚ
  y : ℚ
  width : ℚ
  height : ℚ
  label : Option Chars
  color : Option Chars
  url : Option Chars
  file : Option Chars
  text : Option Chars
  content : Chars
deriving DecidableEq, Repr

/-- Edge record of the loader. -/
structure LoaderEdge where
  id : Chars
  fromNode : Chars
  toNode : Chars
  fromSide : Option Chars
  toSide : Option Chars
  label : Option Chars
deriving DecidableEq, Repr

/-- Horizontal center of a node. -/
def centerX (n : RichNode) : ℚ := n.x + n.width / 2

/-- Vertical center of a node. -/
def centerY (n : RichNode) : ℚ := n.y + n.height / 2

/-- The inside check of deriveGroupEdges: the center of `n` lies within the
    bounding rectangle of `g`, all four bounds inclusive. -/
def insideGroup (g n : RichNode) : Bool :=
  decide (centerX n ≥ g.x) && decide (centerY n ≥ g.y) &&
  decide (centerX n ≤ g.x + g.width) && decide (centerY n ≤ g.y + g.height)

/-- The group/member pairs visited by the two nested loops of
    deriveGroupEdges, in visit order. -/
def containPairs (nodes : List RichNode) : List (RichNode × RichNode) :=
  (nodes.filter (fun n => n.ntype = tGroup)).flatMap (fun g =>
    (nodes.filter (fun n => !(n.id = g.id) && insideGroup g n)).map (fun n => (g, n)))

/-- The synthetic contains edges pushed by deriveGroupEdges; the external
    uuid source is modelled by `fresh` applied to the push index. -/
def deriveGroupEdges (fresh : Nat → Chars) (nodes : List RichNode) : List LoaderEdge :=
  (containPairs nodes).enum.map (fun pr =>
    ⟨fresh pr.1, pr.2.1.id, pr.2.2.id, none, none, some sContains⟩)


/- ---------- concrete instances used in examples ---------- -/

/-- Fixed stand-in for the external id generators in concrete runs. -/
def genW : Nat → Chars := fun n => 'g' :: (Nat.toDigits 10 n)

def cxWholeS : Chars :=
  ("<add_node id=\"a\" type=\"group\"/><add_node id=\"b\" type=\"text\">T</add_node>").toList
def cxFragA : Chars := ("<add_node id=\"a\" type=\"group\"/>").toList
def cxFragB : Chars := ("<add_node id=\"b\" type=\"text\">T</add_node>").toList

def wSplitS : Chars := ("<delete_node id=\"a\"/>").toList
def wFragA : Chars := ("<delete_").toList
def wFragB : Chars := ("node id=\"a\"/>").toList

def c5Buf : Chars := ("<delete_node id=\"d\"/><update_node id=\"u\" x=\"5\"/>").toList
def c6Buf : Chars := ("<add_node id=\"a\" type=\"text\" x=\"abc\"/>").toList

/-- Text node with default geometry, for concrete documents. -/
def simpleNode (i t : Chars) : CanvasNode :=
  ⟨i, t, some 0, some 0, some 200, some 100, none, none, none, none, none⟩

/-- Bare edge, for concrete documents. -/
def simpleEdge (i f t : Chars) : CanvasEdge := ⟨i, f, t, none, none, none, none⟩

def idA : Chars := ("A").toList
def idB : Chars := ("B").toList
def idC : Chars := ("C").toList
def idE1 : Chars := ("e1").toList
def idE2 : Chars := ("e2").toList
def idE3 : Chars := ("e3").toList
def idN1 : Chars := ("n1").toList
def idN2 : Chars := ("n2").toList
def idN9 : Chars := ("n9").toList

/-- Document with nodes A, B, C and edges e1(A→B), e2(C→A), e3(B→C). -/
def c3Doc : CanvasData :=
  ⟨[simpleNode idA tText, simpleNode idB tText, simpleNode idC tText],
   [simpleEdge idE1 idA idB, simpleEdge idE2 idC idA, simpleEdge idE3 idB idC]⟩

/-- Document with nodes n1, n2 and one edge e1(n1→n2). -/
def c4Doc : CanvasData :=
  ⟨[simpleNode idN1 tText, simpleNode idN2 tText], [simpleEdge idE1 idN1 idN2]⟩

/-- Group/member geometry for the loader examples. -/
def richNodeOf (i t : Chars) (x y w h : ℚ) : RichNode :=
  ⟨i, t, x, y, w, h, none, none, none, none, none, []⟩

def gA : RichNode := richNodeOf (("gA").toList) tGroup 0 0 10 10
def gB : RichNode := richNodeOf (("gB").toList) tGroup (-10) (-10) 20 20
def nC : RichNode := richNodeOf (("nC").toList) tText (-5) (-5) 10 10
def c9Nodes : List RichNode := [gA, gB, nC]


/-- Id carried by an add_edge operation, none for the other kinds. -/
def opAddEdgeId : COp → Option Chars
  | COp.addEdge i _ _ _ _ _ _ => some i
  | _ => none

/-- Concrete update payload: geometry change plus a content change. -/
def c8Upd : NodeUpdates :=
  ⟨some (some 7), none, none, none, some (("hi").toList), none, none⟩

/-- Shape index of an operation in the fixed scan priority order. -/
def opKind : COp → Nat
  | COp.addNode _ _ _ _ _ _ _ _ _ _ _ => 0
  | COp.updateNode _ _ => 1
  | COp.deleteNode _ => 2
  | COp.addEdge _ _ _ _ _ _ _ => 3
  | COp.deleteEdge _ => 4

/-- Parsed x field of an add_node operation. -/
def opX : COp → Option (Option Int)
  | COp.addNode _ _ x _ _ _ _ _ _ _ _ => some x
  | _ => none

/-- Parsed y field of an add_node operation. -/
def opY : COp → Option (Option Int)
  | COp.addNode _ _ _ y _ _ _ _ _ _ _ => some y
  | _ => none

/-- Parsed width field of an add_node operation. -/
def opW : COp → Option (Option Int)
  | COp.addNode _ _ _ _ w _ _ _ _ _ _ => some w
  | _ => none

/-- Parsed height field of an add_node operation. -/
def opH : COp → Option (Option Int)
  | COp.addNode _ _ _ _ _ h _ _ _ _ _ => some h
  | _ => none

/-- Concrete attribute list with id and type only. -/
def c6Attrs : List (Chars × Chars) := [(kId, ("a").toList), (kType, tText)]

/- ---------- list helper lemmas ---------- -/

theorem removeFirst_eq_none_iff (p : α → Bool) (l : List α) :
    removeFirst p l = none ↔ ∀ a ∈ l, p a = false := by
  induction l with
  | nil => simp [removeFirst]
  | cons a as ih =>
    simp only [removeFirst]
    cases hp : p a with
    | true =>
      rw [if_pos rfl]
      simp only [List.forall_mem_cons]
      constructor
      · intro h; cases h
      · intro h; rw [h.1] at hp; cases hp
    | false =>
      rw [if_neg (by simp)]
      simp only [Option.map_eq_none', ih, List.forall_mem_cons]
      constructor
      · intro h; exact ⟨hp, h⟩
      · intro h; exact h.2

theorem removeFirst_isSome_of_mem (p : α → Bool) {l : List α} {a : α}
    (ha : a ∈ l) (hp : p a = true) : ∃ l2, removeFirst p l = some l2 := by
  induction l with
  | nil => cases ha
  | cons b bs ih =>
    simp only [removeFirst]
    cases hb : p b with
    | true => exact ⟨bs, by rw [if_pos rfl]⟩
    | false =>
      rcases List.mem_cons.mp ha with rfl | ha2
      · rw [hb] at hp; cases hp
      · obtain ⟨l2, h2⟩ := ih ha2
        exact ⟨b :: l2, by rw [if_neg (by simp), h2]; rfl⟩

theorem removeFirst_sublist (p : α → Bool) :
    ∀ {l l2 : List α}, removeFirst p l = some l2 → l2.Sublist l := by
  intro l
  induction l with
  | nil => intro l2 h; simp [removeFirst] at h
  | cons a as ih =>
    intro l2 h
    simp only [removeFirst] at h
    cases hp : p a with
    | true =>
      rw [if_pos hp] at h
      injection h with h; subst h
      exact List.sublist_cons_self a as
    | false =>
      rw [if_neg (by simp [hp])] at h
      simp only [Option.map_eq_some'] at h
      obtain ⟨l3, h3, rfl⟩ := h
      exact (ih h3).cons₂ a

theorem mem_removeFirst_of_notp (p : α → Bool) {l l2 : List α} {a : α}
    (h : removeFirst p l = some l2) (ha : a ∈ l) (hp : p a = false) : a ∈ l2 := by
  induction l generalizing l2 with
  | nil => cases ha
  | cons b bs ih =>
    simp only [removeFirst] at h
    cases hb : p b with
    | true =>
      rw [if_pos hb] at h
      injection h with h; subst h
      rcases List.mem_cons.mp ha with rfl | ha2
      · rw [hb] at hp; cases hp
      · exact ha2
    | false =>
      rw [if_neg (by simp [hb])] at h
      simp only [Option.map_eq_some'] at h
      obtain ⟨l3, h3, rfl⟩ := h
      rcases List.mem_cons.mp ha with rfl | ha2
      · exact List.mem_cons_self a l3
      · exact List.mem_cons_of_mem b (ih h3 ha2)

theorem countP_le_one_of_nodup_map [DecidableEq β] (f : α → β) (k : β) {l : List α}
    (h : (l.map f).Nodup) : l.countP (fun a => decide (f a = k)) ≤ 1 := by
  induction l with
  | nil => simp
  | cons a as ih =>
    simp only [List.map_cons, List.nodup_cons] at h
    rw [List.countP_cons]
    by_cases hak : f a = k
    · have hz : as.countP (fun a => decide (f a = k)) = 0 := by
        rw [List.countP_eq_zero]
        intro b hb
        simp only [decide_eq_true_eq]
        intro hbk
        exact h.1 (hak ▸ hbk ▸ List.mem_map_of_mem f hb)
      simp [hz, hak]
    · simpa [hak] using ih h.2

theorem removeFirst_eq_filter (p : α → Bool) {l l2 : List α}
    (hc : l.countP p ≤ 1) (h : removeFirst p l = some l2) :
    l2 = l.filter (fun a => !(p a)) := by
  induction l generalizing l2 with
  | nil => simp [removeFirst] at h
  | cons a as ih =>
    simp only [removeFirst] at h
    cases hp : p a with
    | true =>
      rw [if_pos hp] at h
      injection h with h; subst h
      have hz : as.countP p = 0 := by
        rw [List.countP_cons, hp, if_pos rfl] at hc
        omega
      have hall : ∀ b ∈ as, (!(p b)) = true := by
        intro b hb
        have hb2 := (List.countP_eq_zero.mp hz) b hb
        simp only [Bool.not_eq_true] at hb2
        simp [hb2]
      rw [List.filter_cons]
      simp only [hp, Bool.not_true]
      rw [if_neg (by simp)]
      exact (List.filter_eq_self.mpr hall).symm
    | false =>
      rw [if_neg (by simp [hp])] at h
      simp only [Option.map_eq_some'] at h
      obtain ⟨l3, h3, rfl⟩ := h
      have hc2 : as.countP p ≤ 1 := by
        rw [List.countP_cons, hp, if_neg (by simp)] at hc
        omega
      rw [List.filter_cons]
      simp only [hp, Bool.not_false]
      rw [if_pos trivial, ih hc2 h3]

theorem updateFirst_eq_none_iff (p : α → Bool) (f : α → α) (l : List α) :
    updateFirst p f l = none ↔ ∀ a ∈ l, p a = false := by
  induction l with
  | nil => simp [updateFirst]
  | cons a as ih =>
    simp only [updateFirst]
    cases hp : p a with
    | true =>
      rw [if_pos rfl]
      simp only [List.forall_mem_cons]
      constructor
      · intro h; cases h
      · intro h; rw [h.1] at hp; cases hp
    | false =>
      rw [if_neg (by simp)]
      simp only [Option.map_eq_none', ih, List.forall_mem_cons]
      constructor
      · intro h; exact ⟨hp, h⟩
      · intro h; exact h.2

theorem updateFirst_isSome_of_mem (p : α → Bool) (f : α → α) {l : List α} {a : α}
    (ha : a ∈ l) (hp : p a = true) : ∃ l2, updateFirst p f l = some l2 := by
  induction l with
  | nil => cases ha
  | cons b bs ih =>
    simp only [updateFirst]
    cases hb : p b with
    | true => exact ⟨f b :: bs, by rw [if_pos rfl]⟩
    | false =>
      rcases List.mem_cons.mp ha with rfl | ha2
      · rw [hb] at hp; cases hp
      · obtain ⟨l2, h2⟩ := ih ha2
        exact ⟨b :: l2, by rw [if_neg (by simp), h2]; rfl⟩

theorem updateFirst_map_eq (p : α → Bool) (f : α → α) (g : α → β)
    (hf : ∀ a, g (f a) = g a) :
    ∀ {l l2 : List α}, updateFirst p f l = some l2 → l2.map g = l.map g := by
  intro l
  induction l with
  | nil => intro l2 h; simp [updateFirst] at h
  | cons a as ih =>
    intro l2 h
    simp only [updateFirst] at h
    cases hp : p a with
    | true =>
      rw [if_pos hp] at h
      injection h with h; subst h
      simp [hf]
    | false =>
      rw [if_neg (by simp [hp])] at h
      simp only [Option.map_eq_some'] at h
      obtain ⟨l3, h3, rfl⟩ := h
      simp [ih h3]

theorem mem_updateFirst_of_notp (p : α → Bool) (f : α → α) {l l2 : List α} {a : α}
    (h : updateFirst p f l = some l2) (ha : a ∈ l) (hp : p a = false) : a ∈ l2 := by
  induction l generalizing l2 with
  | nil => cases ha
  | cons b bs ih =>
    simp only [updateFirst] at h
    cases hb : p b with
    | true =>
      rw [if_pos hb] at h
      injection h with h; subst h
      rcases List.mem_cons.mp ha with rfl | ha2
      · rw [hb] at hp; cases hp
      · exact List.mem_cons_of_mem _ ha2
    | false =>
      rw [if_neg (by simp [hb])] at h
      simp only [Option.map_eq_some'] at h
      obtain ⟨l3, h3, rfl⟩ := h
      rcases List.mem_cons.mp ha with rfl | ha2
      · exact List.mem_cons_self a l3
      · exact List.mem_cons_of_mem b (ih h3 ha2)

theorem mem_of_mem_updateFirst (p : α → Bool) (f : α → α) {l l2 : List α} {a2 : α}
    (h : updateFirst p f l = some l2) (ha : a2 ∈ l2) :
    a2 ∈ l ∨ ∃ b, b ∈ l ∧ p b = true ∧ a2 = f b := by
  induction l generalizing l2 with
  | nil => simp [updateFirst] at h
  | cons b bs ih =>
    simp only [updateFirst] at h
    cases hb : p b with
    | true =>
      rw [if_pos hb] at h
      injection h with h; subst h
      rcases List.mem_cons.mp ha with rfl | ha2
      · exact Or.inr ⟨b, List.mem_cons_self b bs, hb, rfl⟩
      · exact Or.inl (List.mem_cons_of_mem b ha2)
    | false =>
      rw [if_neg (by simp [hb])] at h
      simp only [Option.map_eq_some'] at h
      obtain ⟨l3, h3, rfl⟩ := h
      rcases List.mem_cons.mp ha with rfl | ha2
      · exact Or.inl (List.mem_cons_self a2 bs)
      · rcases ih h3 ha2 with h4 | ⟨c, hc1, hc2, hc3⟩
        · exact Or.inl (List.mem_cons_of_mem b h4)
        · exact Or.inr ⟨c, List.mem_cons_of_mem b hc1, hc2, hc3⟩

theorem updateFirst_replaces (p : α → Bool) (f : α → α) {l l2 : List α} {b : α}
    (hc : l.countP p ≤ 1) (hb : b ∈ l) (hpb : p b = true)
    (h : updateFirst p f l = some l2) : f b ∈ l2 := by
  induction l generalizing l2 with
  | nil => cases hb
  | cons a as ih =>
    simp only [updateFirst] at h
    cases hp : p a with
    | true =>
      rw [if_pos hp] at h
      injection h with h; subst h
      rcases List.mem_cons.mp hb with rfl | hb2
      · exact List.mem_cons_self _ _
      · exfalso
        have hz : as.countP p = 0 := by
          rw [List.countP_cons, hp, if_pos rfl] at hc
          omega
        have := (List.countP_eq_zero.mp hz) b hb2
        rw [hpb] at this; exact this rfl
    | false =>
      rw [if_neg (by simp [hp])] at h
      simp only [Option.map_eq_some'] at h
      obtain ⟨l3, h3, rfl⟩ := h
      rcases List.mem_cons.mp hb with rfl | hb2
      · rw [hp] at hpb; cases hpb
      · have hc2 : as.countP p ≤ 1 := by
          rw [List.countP_cons] at hc
          omega
        exact List.mem_cons_of_mem a (ih hc2 hb2 h3)


/- ---------- executor helper lemmas ---------- -/

theorem tText_ne_tGroup : tText ≠ tGroup := by decide

theorem applyUpdates_id (n : CanvasNode) (u : NodeUpdates) :
    (applyUpdates n u).id = n.id := by
  unfold applyUpdates
  cases u.content <;> cases u.label <;>
    by_cases h1 : n.ntype = tText <;> by_cases h2 : n.ntype = tGroup <;>
    simp [h1, h2, tText_ne_tGroup, Ne.symm tText_ne_tGroup]

theorem applyUpdates_ntype (n : CanvasNode) (u : NodeUpdates) :
    (applyUpdates n u).ntype = n.ntype := by
  unfold applyUpdates
  cases u.content <;> cases u.label <;>
    by_cases h1 : n.ntype = tText <;> by_cases h2 : n.ntype = tGroup <;>
    simp [h1, h2, tText_ne_tGroup, Ne.symm tText_ne_tGroup]

theorem applyUpdates_x (n : CanvasNode) (u : NodeUpdates) :
    (applyUpdates n u).x = u.x.getD n.x := by
  unfold applyUpdates
  cases u.content <;> cases u.label <;>
    by_cases h1 : n.ntype = tText <;> by_cases h2 : n.ntype = tGroup <;>
    simp [h1, h2, tText_ne_tGroup, Ne.symm tText_ne_tGroup]

theorem applyUpdates_y (n : CanvasNode) (u : NodeUpdates) :
    (applyUpdates n u).y = u.y.getD n.y := by
  unfold applyUpdates
  cases u.content <;> cases u.label <;>
    by_cases h1 : n.ntype = tText <;> by_cases h2 : n.ntype = tGroup <;>
    simp [h1, h2, tText_ne_tGroup, Ne.symm tText_ne_tGroup]

theorem applyUpdates_width (n : CanvasNode) (u : NodeUpdates) :
    (applyUpdates n u).width = u.width.getD n.width := by
  unfold applyUpdates
  cases u.content <;> cases u.label <;>
    by_cases h1 : n.ntype = tText <;> by_cases h2 : n.ntype = tGroup <;>
    simp [h1, h2, tText_ne_tGroup, Ne.symm tText_ne_tGroup]

theorem applyUpdates_height (n : CanvasNode) (u : NodeUpdates) :
    (applyUpdates n u).height = u.height.getD n.height := by
  unfold applyUpdates
  cases u.content <;> cases u.label <;>
    by_cases h1 : n.ntype = tText <;> by_cases h2 : n.ntype = tGroup <;>
    simp [h1, h2, tText_ne_tGroup, Ne.symm tText_ne_tGroup]

theorem applyUpdates_color (n : CanvasNode) (u : NodeUpdates) :
    (applyUpdates n u).color = u.color.or n.color := by
  unfold applyUpdates
  cases u.content <;> cases u.color <;> cases u.label <;>
    by_cases h1 : n.ntype = tText <;> by_cases h2 : n.ntype = tGroup <;>
    simp [h1, h2, tText_ne_tGroup, Ne.symm tText_ne_tGroup, Option.or]

theorem applyUpdates_text (n : CanvasNode) (u : NodeUpdates) :
    (applyUpdates n u).text =
      (if n.ntype = tText then u.content.or n.text else n.text) := by
  unfold applyUpdates
  cases u.content <;> cases u.label <;>
    by_cases h1 : n.ntype = tText <;> by_cases h2 : n.ntype = tGroup <;>
    simp [h1, h2, tText_ne_tGroup, Ne.symm tText_ne_tGroup, Option.or]

theorem applyUpdates_label (n : CanvasNode) (u : NodeUpdates) :
    (applyUpdates n u).label =
      (if n.ntype = tGroup then u.label.or n.label else n.label) := by
  unfold applyUpdates
  cases u.content <;> cases u.label <;>
    by_cases h1 : n.ntype = tText <;> by_cases h2 : n.ntype = tGroup <;>
    simp [h1, h2, tText_ne_tGroup, Ne.symm tText_ne_tGroup, Option.or]

theorem applyUpdates_file (n : CanvasNode) (u : NodeUpdates) :
    (applyUpdates n u).file = n.file := by
  unfold applyUpdates
  cases u.content <;> cases u.label <;>
    by_cases h1 : n.ntype = tText <;> by_cases h2 : n.ntype = tGroup <;>
    simp [h1, h2, tText_ne_tGroup, Ne.symm tText_ne_tGroup]

theorem applyUpdates_url (n : CanvasNode) (u : NodeUpdates) :
    (applyUpdates n u).url = n.url := by
  unfold applyUpdates
  cases u.content <;> cases u.label <;>
    by_cases h1 : n.ntype = tText <;> by_cases h2 : n.ntype = tGroup <;>
    simp [h1, h2, tText_ne_tGroup, Ne.symm tText_ne_tGroup]

theorem execOp_success_or_unchanged (d : CanvasData) (op : COp) :
    (execOp d op).1.success = true ∨ (execOp d op).2 = d := by
  cases op <;>
    simp only [execOp, executeAddNode, executeUpdateNode, executeDeleteNode,
      executeAddEdge, executeDeleteEdge] <;>
    (repeat' split) <;> simp

theorem execOp_fail_eq (d : CanvasData) (op : COp)
    (h : (execOp d op).1.success = false) : (execOp d op).2 = d := by
  rcases execOp_success_or_unchanged d op with hs | hu
  · rw [hs] at h; cases h
  · exact hu

theorem runOps_length (d : CanvasData) (ops : List COp) :
    (runOps d ops).1.length = ops.length := by
  induction ops generalizing d with
  | nil => rfl
  | cons op rest ih => simp [runOps, ih]


/- ---------- claim C2: batch best-effort semantics ---------- -/

/-- C2.  Batch best-effort semantics of executeCanvasOperations: the
    operations are applied strictly in sequence against the one shared
    document (the loop runOps); a failing operation leaves the document
    unchanged, so it cannot undo earlier successes; exactly one write
    attempt happens, after the whole batch, and only when at least one
    operation succeeded; when that write fails every successful result is
    downgraded to a failure carrying the write-failure reason while
    failures keep their original error, and allSuccess is false; otherwise
    allSuccess holds exactly when every per-operation result succeeded. -/
theorem c2_batch_best_effort (writeOk : Bool) (d : CanvasData) (ops : List COp) :
    (executeCanvasOperations writeOk d ops).finalDoc = (runOps d ops).2
    ∧ (executeCanvasOperations writeOk d ops).results.length = ops.length
    ∧ (executeCanvasOperations writeOk d ops).writeAttempts =
        (if (runOps d ops).1.any (fun r => r.success) = true
         then [(runOps d ops).2] else [])
    ∧ (executeCanvasOperations writeOk d ops).results =
        (if ((runOps d ops).1.any (fun r => r.success) && !writeOk) = true
         then (runOps d ops).1.map downgradeResult else (runOps d ops).1)
    ∧ (∀ r : OperationResult, r.success = false → downgradeResult r = r)
    ∧ (∀ r : OperationResult, r.success = true →
         downgradeResult r = { r with success := false, error := some writeFailMsg })
    ∧ (executeCanvasOperations writeOk d ops).allSuccess =
        (if ((runOps d ops).1.any (fun r => r.success) && !writeOk) = true
         then false else (runOps d ops).1.all (fun r => r.success))
    ∧ (∀ d2 op, (execOp d2 op).1.success = false → (execOp d2 op).2 = d2) := by
  have hdg1 : ∀ r : OperationResult, r.success = false → downgradeResult r = r := by
    intro r h; simp [downgradeResult, h]
  have hdg2 : ∀ r : OperationResult, r.success = true →
      downgradeResult r = { r with success := false, error := some writeFailMsg } := by
    intro r h; simp [downgradeResult, h]
  refine ⟨?_, ?_, ?_, ?_, hdg1, hdg2, ?_, fun d2 op => execOp_fail_eq d2 op⟩ <;>
    cases hany : (runOps d ops).1.any (fun r => r.success) <;> cases writeOk <;>
      simp [executeCanvasOperations, hany, runOps_length]

/- ---------- claim C7: duplicate node id rejection ---------- -/

/-- C7.  Adding a node whose id already occurs in the document fails with
    the duplicate-id error and returns the document entirely unchanged. -/
theorem c7_duplicate_id_add_node (d : CanvasData) (i t : Chars)
    (x y w h : Option Int) (c co f u l : Option Chars)
    (hdup : ∃ n ∈ d.nodes, n.id = i) :
    executeAddNode d i t x y w h c co f u l = (⟨false, some (dupMsg i), none⟩, d) := by
  have hany : d.nodes.any (fun n => n.id = i) = true := by
    rw [List.any_eq_true]
    obtain ⟨n, hn, hid⟩ := hdup
    exact ⟨n, hn, by simp [hid]⟩
  unfold executeAddNode
  rw [if_pos hany]

/-- Witness for C7 on the concrete three-node document. -/
theorem c7_duplicate_id_add_node_witness :
    (∃ n ∈ c3Doc.nodes, n.id = idA)
    ∧ executeAddNode c3Doc idA tText (some 0) (some 0) (some 200) (some 100)
        none none none none none
      = (⟨false, some (dupMsg idA), none⟩, c3Doc) :=
  ⟨by decide,
   c7_duplicate_id_add_node c3Doc idA tText (some 0) (some 0) (some 200) (some 100)
     none none none none none (by decide)⟩


/- ---------- claim C3: cascade deletion ---------- -/

/-- C3.  For a document with pairwise-distinct node ids, deleting an
    existing node succeeds, removes exactly that node and exactly the edges
    touching it, leaves everything else unchanged, and reports the node id
    followed by the removed edge ids; deleting an absent node fails with
    the not-found error and changes nothing. -/
theorem c3_cascade_delete (d : CanvasData) (a : Chars)
    (hnd : (d.nodes.map (fun n => n.id)).Nodup) :
    ((∃ n ∈ d.nodes, n.id = a) →
       ((executeDeleteNode d a).1.success = true
        ∧ (executeDeleteNode d a).1.affectedIds =
            some (a :: (d.edges.filter
              (fun e => e.fromNode = a || e.toNode = a)).map (fun e => e.id))
        ∧ (executeDeleteNode d a).2.nodes =
            d.nodes.filter (fun n => !(decide (n.id = a)))
        ∧ (executeDeleteNode d a).2.edges =
            d.edges.filter (fun e => !(e.fromNode = a || e.toNode = a))))
    ∧ ((∀ n ∈ d.nodes, n.id ≠ a) →
       executeDeleteNode d a = (⟨false, some (nodeNotFoundMsg a), none⟩, d)) := by
  constructor
  · intro hex
    obtain ⟨n, hn, hid⟩ := hex
    obtain ⟨nodes2, h2⟩ :=
      removeFirst_isSome_of_mem (fun n => n.id = a) hn (by simp [hid])
    have hcount := countP_le_one_of_nodup_map (fun n : CanvasNode => n.id) a hnd
    have hfil := removeFirst_eq_filter (fun n : CanvasNode => n.id = a)
      (by simpa using hcount) h2
    unfold executeDeleteNode
    rw [h2]
    exact ⟨rfl, rfl, hfil, rfl⟩
  · intro hall
    have hnone : removeFirst (fun n : CanvasNode => n.id = a) d.nodes = none :=
      (removeFirst_eq_none_iff _ _).mpr (by intro n hn; simp [hall n hn])
    unfold executeDeleteNode
    rw [hnone]

/-- Witness for C3 on the document with nodes A, B, C and edges e1(A→B),
    e2(C→A), e3(B→C): deleting A removes e1 and e2 and keeps e3. -/
theorem c3_cascade_delete_witness :
    ((c3Doc.nodes.map (fun n => n.id)).Nodup)
    ∧ (((∃ n ∈ c3Doc.nodes, n.id = idA) →
       ((executeDeleteNode c3Doc idA).1.success = true
        ∧ (executeDeleteNode c3Doc idA).1.affectedIds =
            some (idA :: (c3Doc.edges.filter
              (fun e => e.fromNode = idA || e.toNode = idA)).map (fun e => e.id))
        ∧ (executeDeleteNode c3Doc idA).2.nodes =
            c3Doc.nodes.filter (fun n => !(decide (n.id = idA)))
        ∧ (executeDeleteNode c3Doc idA).2.edges =
            c3Doc.edges.filter (fun e => !(e.fromNode = idA || e.toNode = idA))))
    ∧ ((∀ n ∈ c3Doc.nodes, n.id ≠ idA) →
       executeDeleteNode c3Doc idA = (⟨false, some (nodeNotFoundMsg idA), none⟩, c3Doc))) :=
  ⟨by decide, c3_cascade_delete c3Doc idA (by decide)⟩

/- ---------- claim C4: id-uniqueness invariant ---------- -/

/-- C4 counterexample: on a document with distinct edge ids, add_edge with
    an id already used by the existing edge succeeds and produces a
    document with two edges carrying that id, so the uniqueness invariant
    is not preserved. -/
theorem c4_counterexample :
    ((c4Doc.edges.map (fun e => e.id)).Nodup)
    ∧ ((c4Doc.nodes.map (fun n => n.id)).Nodup)
    ∧ (execOp c4Doc (COp.addEdge idE1 idN1 idN2 none none none none)).1.success = true
    ∧ ¬(((execOp c4Doc (COp.addEdge idE1 idN1 idN2 none none none none)).2.edges.map
          (fun e => e.id)).Nodup)
    ∧ ((execOp c4Doc (COp.addEdge idE1 idN1 idN2 none none none none)).2.edges.filter
          (fun e => e.id = idE1)).length = 2 := by decide

theorem executeAddNode_shape (d : CanvasData) (i t : Chars) (x y w h : Option Int)
    (c co f u l : Option Chars) :
    (executeAddNode d i t x y w h c co f u l).2 = d
    ∨ ∃ nn : CanvasNode, nn.id = i
        ∧ d.nodes.any (fun n => n.id = i) = false
        ∧ (executeAddNode d i t x y w h c co f u l).2 = ⟨d.nodes ++ [nn], d.edges⟩ := by
  unfold executeAddNode
  by_cases h1 : d.nodes.any (fun n => n.id = i) = true
  · rw [if_pos h1]; exact Or.inl rfl
  · have h1f : d.nodes.any (fun n => n.id = i) = false := by simpa using h1
    rw [if_neg h1]
    repeat' split
    all_goals first
      | exact Or.inl rfl
      | exact Or.inr ⟨_, rfl, h1f, rfl⟩

theorem executeAddEdge_shape (d : CanvasData) (i f0 t0 : Chars)
    (fs ts l c : Option Chars) :
    (executeAddEdge d i f0 t0 fs ts l c).2 = d
    ∨ ∃ ne2 : CanvasEdge, ne2.id = i
        ∧ (executeAddEdge d i f0 t0 fs ts l c).2 = ⟨d.nodes, d.edges ++ [ne2]⟩ := by
  unfold executeAddEdge
  repeat' split
  · exact Or.inl rfl
  · exact Or.inl rfl
  · exact Or.inr ⟨_, rfl, rfl⟩

/-- C4 amended.  Any single operation preserves distinctness of node ids;
    it also preserves distinctness of edge ids provided that, when the
    operation is an add_edge, its id is not already used by an existing
    edge (the source performs no duplicate check for edge ids, so an
    add_edge reusing an existing id does create a second edge with it). -/
theorem c4_id_uniqueness_amended (d : CanvasData) (op : COp)
    (hN : (d.nodes.map (fun n => n.id)).Nodup)
    (hE : (d.edges.map (fun e => e.id)).Nodup) :
    ((execOp d op).2.nodes.map (fun n => n.id)).Nodup
    ∧ ((∀ i, opAddEdgeId op = some i → i ∉ d.edges.map (fun e => e.id)) →
        ((execOp d op).2.edges.map (fun e => e.id)).Nodup) := by
  cases op with
  | addNode i t x y w h c co f u l =>
    rcases executeAddNode_shape d i t x y w h c co f u l with hs | ⟨nn, hid, hany, hs⟩
    · constructor
      · rw [show (execOp d (COp.addNode i t x y w h c co f u l)) =
            executeAddNode d i t x y w h c co f u l from rfl, hs]
        exact hN
      · intro _
        rw [show (execOp d (COp.addNode i t x y w h c co f u l)) =
            executeAddNode d i t x y w h c co f u l from rfl, hs]
        exact hE
    · constructor
      · rw [show (execOp d (COp.addNode i t x y w h c co f u l)) =
            executeAddNode d i t x y w h c co f u l from rfl, hs]
        simp only [List.map_append, List.map_cons, List.map_nil, List.nodup_append]
        refine ⟨hN, by simp, ?_⟩
        intro b hb
        simp only [List.mem_singleton, hid]
        intro hbi
        subst hbi
        rcases List.mem_map.mp hb with ⟨m, hm, hmi⟩
        have hfalse := (List.any_eq_false.mp hany) m hm
        simp [hmi] at hfalse
      · intro _
        rw [show (execOp d (COp.addNode i t x y w h c co f u l)) =
            executeAddNode d i t x y w h c co f u l from rfl, hs]
        exact hE
  | updateNode i u =>
    constructor
    · rcases hup : updateFirst (fun n => n.id = i) (fun n => applyUpdates n u) d.nodes
        with _ | nodes2
      · simp only [execOp, executeUpdateNode, hup]
        exact hN
      · simp only [execOp, executeUpdateNode, hup]
        rw [updateFirst_map_eq (fun n => n.id = i) (fun n => applyUpdates n u)
          (fun n => n.id) (fun n => applyUpdates_id n u) hup]
        exact hN
    · intro _
      rcases hup : updateFirst (fun n => n.id = i) (fun n => applyUpdates n u) d.nodes
        with _ | nodes2 <;> simp only [execOp, executeUpdateNode, hup] <;> exact hE
  | deleteNode i =>
    constructor
    · rcases hrm : removeFirst (fun n => n.id = i) d.nodes with _ | nodes2
      · simp only [execOp, executeDeleteNode, hrm]
        exact hN
      · simp only [execOp, executeDeleteNode, hrm]
        exact hN.sublist ((removeFirst_sublist _ hrm).map (fun n => n.id))
    · intro _
      rcases hrm : removeFirst (fun n => n.id = i) d.nodes with _ | nodes2
      · simp only [execOp, executeDeleteNode, hrm]
        exact hE
      · simp only [execOp, executeDeleteNode, hrm]
        exact hE.sublist ((List.filter_sublist d.edges).map (fun e => e.id))
  | addEdge i f0 t0 fs ts l c =>
    rcases executeAddEdge_shape d i f0 t0 fs ts l c with hs | ⟨ne2, hid, hs⟩
    · constructor
      · rw [show (execOp d (COp.addEdge i f0 t0 fs ts l c)) =
            executeAddEdge d i f0 t0 fs ts l c from rfl, hs]
        exact hN
      · intro _
        rw [show (execOp d (COp.addEdge i f0 t0 fs ts l c)) =
            executeAddEdge d i f0 t0 fs ts l c from rfl, hs]
        exact hE
    · constructor
      · rw [show (execOp d (COp.addEdge i f0 t0 fs ts l c)) =
            executeAddEdge d i f0 t0 fs ts l c from rfl, hs]
        exact hN
      · intro hfresh
        have hni : i ∉ d.edges.map (fun e => e.id) := hfresh i rfl
        rw [show (execOp d (COp.addEdge i f0 t0 fs ts l c)) =
            executeAddEdge d i f0 t0 fs ts l c from rfl, hs]
        simp only [List.map_append, List.map_cons, List.map_nil, List.nodup_append]
        refine ⟨hE, by simp, ?_⟩
        intro b hb
        simp only [List.mem_singleton, hid]
        intro hbi
        subst hbi
        exact hni hb
  | deleteEdge i =>
    constructor
    · rcases hrm : removeFirst (fun e => e.id = i) d.edges with _ | edges2 <;>
        simp only [execOp, executeDeleteEdge, hrm] <;> exact hN
    · intro _
      rcases hrm : removeFirst (fun e => e.id = i) d.edges with _ | edges2
      · simp only [execOp, executeDeleteEdge, hrm]
        exact hE
      · simp only [execOp, executeDeleteEdge, hrm]
        exact hE.sublist ((removeFirst_sublist _ hrm).map (fun e => e.id))

/-- Witness for the amended C4 at a concrete document and a fresh edge id. -/
theorem c4_id_uniqueness_amended_witness :
    ((c4Doc.nodes.map (fun n => n.id)).Nodup)
    ∧ ((c4Doc.edges.map (fun e => e.id)).Nodup)
    ∧ (((execOp c4Doc (COp.addEdge idE2 idN1 idN2 none none none none)).2.nodes.map
          (fun n => n.id)).Nodup
      ∧ ((∀ i, opAddEdgeId (COp.addEdge idE2 idN1 idN2 none none none none) = some i →
            i ∉ c4Doc.edges.map (fun e => e.id)) →
          ((execOp c4Doc (COp.addEdge idE2 idN1 idN2 none none none none)).2.edges.map
            (fun e => e.id)).Nodup)) :=
  ⟨by decide, by decide,
   c4_id_uniqueness_amended c4Doc (COp.addEdge idE2 idN1 idN2 none none none none)
     (by decide) (by decide)⟩


/- ---------- claim C8: update-node partial merge ---------- -/

/-- C8.  For a document with pairwise-distinct node ids, updating an
    existing node succeeds with affectedIds [id], leaves edges and all
    other nodes untouched, and applies exactly the fields present in the
    payload: geometry and color apply to every kind, content only to text
    nodes, label only to group nodes, and absent fields keep their previous
    values; updating an absent id fails with the not-found error. -/
theorem c8_update_merge (d : CanvasData) (i : Chars) (u : NodeUpdates)
    (hnd : (d.nodes.map (fun n => n.id)).Nodup) :
    ((∀ n ∈ d.nodes, n.id ≠ i) →
       executeUpdateNode d i u = (⟨false, some (nodeNotFoundMsg i), none⟩, d))
    ∧ (∀ n ∈ d.nodes, n.id = i →
       ((executeUpdateNode d i u).1 = ⟨true, none, some [i]⟩
        ∧ (executeUpdateNode d i u).2.edges = d.edges
        ∧ (executeUpdateNode d i u).2.nodes.map (fun m => m.id) =
            d.nodes.map (fun m => m.id)
        ∧ (∀ m ∈ d.nodes, m.id ≠ i → m ∈ (executeUpdateNode d i u).2.nodes)
        ∧ applyUpdates n u ∈ (executeUpdateNode d i u).2.nodes
        ∧ (applyUpdates n u).id = n.id
        ∧ (applyUpdates n u).ntype = n.ntype
        ∧ (applyUpdates n u).x = u.x.getD n.x
        ∧ (applyUpdates n u).y = u.y.getD n.y
        ∧ (applyUpdates n u).width = u.width.getD n.width
        ∧ (applyUpdates n u).height = u.height.getD n.height
        ∧ (applyUpdates n u).color = u.color.or n.color
        ∧ (applyUpdates n u).text =
            (if n.ntype = tText then u.content.or n.text else n.text)
        ∧ (applyUpdates n u).label =
            (if n.ntype = tGroup then u.label.or n.label else n.label)
        ∧ (applyUpdates n u).file = n.file
        ∧ (applyUpdates n u).url = n.url)) := by
  constructor
  · intro hall
    have hnone : updateFirst (fun n : CanvasNode => n.id = i)
        (fun n => applyUpdates n u) d.nodes = none :=
      (updateFirst_eq_none_iff _ _ _).mpr (by intro n hn; simp [hall n hn])
    unfold executeUpdateNode
    rw [hnone]
  · intro n hn hid
    obtain ⟨nodes2, hup⟩ := updateFirst_isSome_of_mem (fun n : CanvasNode => n.id = i)
      (fun n => applyUpdates n u) hn (by simp [hid])
    have hcount : d.nodes.countP (fun n => decide (n.id = i)) ≤ 1 := by
      simpa using countP_le_one_of_nodup_map (fun n : CanvasNode => n.id) i hnd
    refine ⟨?_, ?_, ?_, ?_, ?_,
      applyUpdates_id n u, applyUpdates_ntype n u, applyUpdates_x n u, applyUpdates_y n u,
      applyUpdates_width n u, applyUpdates_height n u, applyUpdates_color n u,
      applyUpdates_text n u, applyUpdates_label n u, applyUpdates_file n u,
      applyUpdates_url n u⟩
    · unfold executeUpdateNode; rw [hup]
    · unfold executeUpdateNode; rw [hup]
    · unfold executeUpdateNode; rw [hup]
      exact updateFirst_map_eq _ _ (fun m => m.id) (fun m => applyUpdates_id m u) hup
    · intro m hm hmi
      unfold executeUpdateNode; rw [hup]
      exact mem_updateFirst_of_notp _ _ hup hm (by simp [hmi])
    · unfold executeUpdateNode; rw [hup]
      exact updateFirst_replaces _ _ hcount hn (by simp [hid]) hup

/-- Witness for C8: updating node B of the concrete document with a
    geometry plus content payload. -/
theorem c8_update_merge_witness :
    ((c3Doc.nodes.map (fun n => n.id)).Nodup)
    ∧ (((∀ n ∈ c3Doc.nodes, n.id ≠ idB) →
       executeUpdateNode c3Doc idB c8Upd = (⟨false, some (nodeNotFoundMsg idB), none⟩, c3Doc))
    ∧ (∀ n ∈ c3Doc.nodes, n.id = idB →
       ((executeUpdateNode c3Doc idB c8Upd).1 = ⟨true, none, some [idB]⟩
        ∧ (executeUpdateNode c3Doc idB c8Upd).2.edges = c3Doc.edges
        ∧ (executeUpdateNode c3Doc idB c8Upd).2.nodes.map (fun m => m.id) =
            c3Doc.nodes.map (fun m => m.id)
        ∧ (∀ m ∈ c3Doc.nodes, m.id ≠ idB → m ∈ (executeUpdateNode c3Doc idB c8Upd).2.nodes)
        ∧ applyUpdates n c8Upd ∈ (executeUpdateNode c3Doc idB c8Upd).2.nodes
        ∧ (applyUpdates n c8Upd).id = n.id
        ∧ (applyUpdates n c8Upd).ntype = n.ntype
        ∧ (applyUpdates n c8Upd).x = c8Upd.x.getD n.x
        ∧ (applyUpdates n c8Upd).y = c8Upd.y.getD n.y
        ∧ (applyUpdates n c8Upd).width = c8Upd.width.getD n.width
        ∧ (applyUpdates n c8Upd).height = c8Upd.height.getD n.height
        ∧ (applyUpdates n c8Upd).color = c8Upd.color.or n.color
        ∧ (applyUpdates n c8Upd).text =
            (if n.ntype = tText then c8Upd.content.or n.text else n.text)
        ∧ (applyUpdates n c8Upd).label =
            (if n.ntype = tGroup then c8Upd.label.or n.label else n.label)
        ∧ (applyUpdates n c8Upd).file = n.file
        ∧ (applyUpdates n c8Upd).url = n.url))) :=
  ⟨by decide, c8_update_merge c3Doc idB c8Upd (by decide)⟩

/- ---------- claim C10: executor frame property ---------- -/

theorem executeAddNode_success_shape (d : CanvasData) (i t : Chars)
    (x y w h : Option Int) (c co f u l : Option Chars)
    (hs : (executeAddNode d i t x y w h c co f u l).1.success = true) :
    (executeAddNode d i t x y w h c co f u l).1.affectedIds = some [i]
    ∧ ∃ nn : CanvasNode,
        (executeAddNode d i t x y w h c co f u l).2 = ⟨d.nodes ++ [nn], d.edges⟩
        ∧ nn.id = i := by
  revert hs
  unfold executeAddNode
  repeat' split
  all_goals intro hs
  all_goals first
    | exact ⟨rfl, _, rfl, rfl⟩
    | cases hs

theorem executeAddEdge_success_shape (d : CanvasData) (i f0 t0 : Chars)
    (fs ts l c : Option Chars)
    (hs : (executeAddEdge d i f0 t0 fs ts l c).1.success = true) :
    (executeAddEdge d i f0 t0 fs ts l c).1.affectedIds = some [i]
    ∧ ∃ ne2 : CanvasEdge,
        (executeAddEdge d i f0 t0 fs ts l c).2 = ⟨d.nodes, d.edges ++ [ne2]⟩
        ∧ ne2.id = i := by
  revert hs
  unfold executeAddEdge
  repeat' split
  all_goals intro hs
  all_goals first
    | exact ⟨rfl, _, rfl, rfl⟩
    | cases hs

/-- C10.  Frame property of the executor: whenever a single operation
    succeeds, every node and every edge whose id is not listed in the
    returned affectedIds is carried over unchanged, and no such node or
    edge appears out of nowhere: membership is preserved in both
    directions outside the affected id set. -/
theorem c10_frame (d : CanvasData) (op : COp)
    (hs : (execOp d op).1.success = true) :
    (∀ n ∈ d.nodes, n.id ∉ ((execOp d op).1.affectedIds.getD []) →
        n ∈ (execOp d op).2.nodes)
    ∧ (∀ n ∈ (execOp d op).2.nodes, n.id ∉ ((execOp d op).1.affectedIds.getD []) →
        n ∈ d.nodes)
    ∧ (∀ e ∈ d.edges, e.id ∉ ((execOp d op).1.affectedIds.getD []) →
        e ∈ (execOp d op).2.edges)
    ∧ (∀ e ∈ (execOp d op).2.edges, e.id ∉ ((execOp d op).1.affectedIds.getD []) →
        e ∈ d.edges) := by
  cases op with
  | addNode i t x y w h c co f u l =>
    obtain ⟨haff, nn, hdoc, hnnid⟩ := executeAddNode_success_shape d i t x y w h c co f u l hs
    have hex : execOp d (COp.addNode i t x y w h c co f u l) =
        executeAddNode d i t x y w h c co f u l := rfl
    rw [hex] at *
    rw [haff, hdoc]
    refine ⟨?_, ?_, ?_, ?_⟩
    · intro n hn _; exact List.mem_append_left _ hn
    · intro n hn hni
      rcases List.mem_append.mp hn with h1 | h1
      · exact h1
      · exfalso
        rcases List.mem_singleton.mp h1 with rfl
        exact hni (by simp [hnnid])
    · intro e he _; exact he
    · intro e he _; exact he
  | updateNode i u =>
    rcases hup : updateFirst (fun n => n.id = i) (fun n => applyUpdates n u) d.nodes
      with _ | nodes2
    · exfalso
      have : (execOp d (COp.updateNode i u)).1.success = false := by
        simp only [execOp, executeUpdateNode, hup]
      rw [this] at hs; cases hs
    · have hres : execOp d (COp.updateNode i u) = (⟨true, none, some [i]⟩, ⟨nodes2, d.edges⟩) := by
        simp only [execOp, executeUpdateNode, hup]
      rw [hres]
      refine ⟨?_, ?_, ?_, ?_⟩
      · intro n hn hni
        exact mem_updateFirst_of_notp _ _ hup hn (by simpa using hni)
      · intro n hn hni
        rcases mem_of_mem_updateFirst _ _ hup hn with h1 | ⟨b, hb, hpb, rfl⟩
        · exact h1
        · exfalso
          apply hni
          have hbi : b.id = i := by simpa using hpb
          simp [applyUpdates_id, hbi]
      · intro e he _; exact he
      · intro e he _; exact he
  | deleteNode i =>
    rcases hrm : removeFirst (fun n => n.id = i) d.nodes with _ | nodes2
    · exfalso
      have : (execOp d (COp.deleteNode i)).1.success = false := by
        simp only [execOp, executeDeleteNode, hrm]
      rw [this] at hs; cases hs
    · have hres : execOp d (COp.deleteNode i) =
          (⟨true, none, some (i :: (d.edges.filter
              (fun e => e.fromNode = i || e.toNode = i)).map (fun e => e.id))⟩,
           ⟨nodes2, d.edges.filter (fun e => !(e.fromNode = i || e.toNode = i))⟩) := by
        simp only [execOp, executeDeleteNode, hrm]
      rw [hres]
      refine ⟨?_, ?_, ?_, ?_⟩
      · intro n hn hni
        refine mem_removeFirst_of_notp _ hrm hn ?_
        simp only [List.getD] at hni
        have : n.id ≠ i := by
          intro hni2; exact hni (by simp [hni2])
        simp [this]
      · intro n hn _
        exact (removeFirst_sublist _ hrm).subset hn
      · intro e he hni
        rw [List.mem_filter]
        refine ⟨he, ?_⟩
        cases htouch : (decide (e.fromNode = i) || decide (e.toNode = i)) with
        | false => simp [htouch]
        | true =>
          exfalso
          apply hni
          simp only [Option.getD_some, List.mem_cons]
          right
          exact List.mem_map.mpr ⟨e, List.mem_filter.mpr ⟨he, by simpa using htouch⟩, rfl⟩
      · intro e he _
        exact (List.filter_sublist d.edges).subset he
  | addEdge i f0 t0 fs ts l c =>
    obtain ⟨haff, ne2, hdoc, hneid⟩ := executeAddEdge_success_shape d i f0 t0 fs ts l c hs
    have hex : execOp d (COp.addEdge i f0 t0 fs ts l c) =
        executeAddEdge d i f0 t0 fs ts l c := rfl
    rw [hex] at *
    rw [haff, hdoc]
    refine ⟨?_, ?_, ?_, ?_⟩
    · intro n hn _; exact hn
    · intro n hn _; exact hn
    · intro e he _; exact List.mem_append_left _ he
    · intro e he hei
      rcases List.mem_append.mp he with h1 | h1
      · exact h1
      · exfalso
        rcases List.mem_singleton.mp h1 with rfl
        exact hei (by simp [hneid])
  | deleteEdge i =>
    rcases hrm : removeFirst (fun e => e.id = i) d.edges with _ | edges2
    · exfalso
      have : (execOp d (COp.deleteEdge i)).1.success = false := by
        simp only [execOp, executeDeleteEdge, hrm]
      rw [this] at hs; cases hs
    · have hres : execOp d (COp.deleteEdge i) = (⟨true, none, some [i]⟩, ⟨d.nodes, edges2⟩) := by
        simp only [execOp, executeDeleteEdge, hrm]
      rw [hres]
      refine ⟨?_, ?_, ?_, ?_⟩
      · intro n hn _; exact hn
      · intro n hn _; exact hn
      · intro e he hei
        exact mem_removeFirst_of_notp _ hrm he (by simpa using hei)
      · intro e he _
        exact (removeFirst_sublist _ hrm).subset he

/-- Witness for C10: deleting node A from the concrete document keeps B, C
    and e3 byte-for-byte. -/
theorem c10_frame_witness :
    ((execOp c3Doc (COp.deleteNode idA)).1.success = true)
    ∧ ((∀ n ∈ c3Doc.nodes,
          n.id ∉ ((execOp c3Doc (COp.deleteNode idA)).1.affectedIds.getD []) →
          n ∈ (execOp c3Doc (COp.deleteNode idA)).2.nodes)
      ∧ (∀ n ∈ (execOp c3Doc (COp.deleteNode idA)).2.nodes,
          n.id ∉ ((execOp c3Doc (COp.deleteNode idA)).1.affectedIds.getD []) →
          n ∈ c3Doc.nodes)
      ∧ (∀ e ∈ c3Doc.edges,
          e.id ∉ ((execOp c3Doc (COp.deleteNode idA)).1.affectedIds.getD []) →
          e ∈ (execOp c3Doc (COp.deleteNode idA)).2.edges)
      ∧ (∀ e ∈ (execOp c3Doc (COp.deleteNode idA)).2.edges,
          e.id ∉ ((execOp c3Doc (COp.deleteNode idA)).1.affectedIds.getD []) →
          e ∈ c3Doc.edges)) :=
  ⟨by decide, c10_frame c3Doc (COp.deleteNode idA) (by decide)⟩


/- ---------- claim C9: inclusive geometric containment ---------- -/

theorem countP_enumFrom_snd (q : α → Bool) :
    ∀ (l : List α) (k : Nat),
      (l.enumFrom k).countP (fun pr => q pr.2) = l.countP q := by
  intro l
  induction l with
  | nil => intro k; rfl
  | cons a as ih =>
    intro k
    simp only [List.enumFrom, List.countP_cons, ih]

theorem countP_flatMap (f : α → List β) (p : β → Bool) (l : List α) :
    (l.flatMap f).countP p = (l.map (fun a => (f a).countP p)).sum := by
  induction l with
  | nil => rfl
  | cons a as ih =>
    simp only [List.flatMap_cons, List.countP_append, ih, List.map_cons, List.sum_cons]

theorem countP_id_and [DecidableEq β] (q : α → Bool) (f : α → β) {l : List α} {n : α}
    (hnd : (l.map f).Nodup) (hn : n ∈ l) :
    l.countP (fun m => decide (f m = f n) && q m) = if q n = true then 1 else 0 := by
  induction l with
  | nil => cases hn
  | cons a as ih =>
    simp only [List.map_cons, List.nodup_cons] at hnd
    rcases List.mem_cons.mp hn with rfl | hn2
    · have hz : as.countP (fun m => decide (f m = f n) && q m) = 0 := by
        rw [List.countP_eq_zero]
        intro b hb
        simp only [Bool.and_eq_true, decide_eq_true_eq, not_and]
        intro hbf _
        exact hnd.1 (hbf ▸ List.mem_map_of_mem f hb)
      rw [List.countP_cons, hz]
      simp
    · have hfa : ¬(f a = f n) := by
        intro hfa
        exact hnd.1 (hfa ▸ List.mem_map_of_mem f hn2)
      rw [List.countP_cons, ih hnd.2 hn2]
      simp [hfa]

theorem sum_map_eq_single [DecidableEq β] (f : α → β) (cnt : α → Nat) (g : α) :
    ∀ {gs : List α}, (gs.map f).Nodup → g ∈ gs →
      (∀ g2 ∈ gs, f g2 ≠ f g → cnt g2 = 0) →
      (gs.map cnt).sum = cnt g := by
  intro gs
  induction gs with
  | nil => intro _ hg _; cases hg
  | cons a as ih =>
    intro hnd hg hz
    simp only [List.map_cons, List.nodup_cons] at hnd
    rcases List.mem_cons.mp hg with rfl | hg2
    · have hza : ∀ g2 ∈ as, cnt g2 = 0 := by
        intro g2 hg2
        apply hz g2 (List.mem_cons_of_mem _ hg2)
        intro hfe
        exact hnd.1 (hfe ▸ List.mem_map_of_mem f hg2)
      simp only [List.map_cons, List.sum_cons]
      rw [List.sum_eq_zero (by intro x hx; rcases List.mem_map.mp hx with ⟨g2, hg2, rfl⟩; exact hza g2 hg2)]
      omega
    · have hfa : f a ≠ f g := by
        intro hfe
        exact hnd.1 (hfe ▸ List.mem_map_of_mem f hg2)
      simp only [List.map_cons, List.sum_cons]
      rw [hz a (List.mem_cons_self a as) hfa, ih hnd.2 hg2
        (fun g2 hg2 hne2 => hz g2 (List.mem_cons_of_mem a hg2) hne2)]
      omega

/-- C9.  The containment deriver emits, for a group g and a distinct node
    n, exactly one synthetic contains edge from g to n when the center of
    n lies inside the bounding rectangle of g with inclusive bounds on all
    four sides, and no such edge otherwise. -/
theorem c9_containment (fresh : Nat → Chars) (nodes : List RichNode) (g n : RichNode)
    (hnd : (nodes.map (fun m => m.id)).Nodup)
    (hg : g ∈ nodes) (hgt : g.ntype = tGroup)
    (hn : n ∈ nodes) (hne : n.id ≠ g.id) :
    (deriveGroupEdges fresh nodes).countP
        (fun e => decide (e.fromNode = g.id) && decide (e.toNode = n.id)
          && decide (e.label = some sContains))
      = if g.x ≤ centerX n ∧ g.y ≤ centerY n
          ∧ centerX n ≤ g.x + g.width ∧ centerY n ≤ g.y + g.height
        then 1 else 0 := by
  have hstep1 : (deriveGroupEdges fresh nodes).countP
      (fun e => decide (e.fromNode = g.id) && decide (e.toNode = n.id)
        && decide (e.label = some sContains))
      = (containPairs nodes).countP
          (fun pr => decide (pr.1.id = g.id) && decide (pr.2.id = n.id)) := by
    unfold deriveGroupEdges
    rw [List.countP_map]
    have he : (containPairs nodes).enum.countP
        ((fun e => decide (e.fromNode = g.id) && decide (e.toNode = n.id)
          && decide (e.label = some sContains)) ∘
         (fun pr => (⟨fresh pr.1, pr.2.1.id, pr.2.2.id, none, none, some sContains⟩ : LoaderEdge)))
        = (containPairs nodes).enum.countP
            (fun pr => decide (pr.2.1.id = g.id) && decide (pr.2.2.id = n.id)) := by
      apply List.countP_congr
      intro pr _
      simp [Function.comp]
    rw [he, List.enum]
    exact countP_enumFrom_snd
      (fun x => decide (x.1.id = g.id) && decide (x.2.id = n.id)) (containPairs nodes) 0
  rw [hstep1]
  unfold containPairs
  rw [countP_flatMap]
  have hgroups : ((nodes.filter (fun m => decide (m.ntype = tGroup))).map
      (fun m => m.id)).Nodup :=
    hnd.sublist ((List.filter_sublist nodes).map (fun m => m.id))
  have hgmem : g ∈ nodes.filter (fun m => decide (m.ntype = tGroup)) :=
    List.mem_filter.mpr ⟨hg, by simp [hgt]⟩
  have hcnt : ∀ g2 ∈ nodes.filter (fun m => decide (m.ntype = tGroup)),
      g2.id ≠ g.id →
      ((nodes.filter (fun m => !(m.id = g2.id) && insideGroup g2 m)).map
        (fun m => (g2, m))).countP
        (fun pr => decide (pr.1.id = g.id) && decide (pr.2.id = n.id)) = 0 := by
    intro g2 _ hne2
    rw [List.countP_map, List.countP_eq_zero]
    intro b _
    simp [Function.comp, hne2]
  have hsum := sum_map_eq_single (fun m : RichNode => m.id)
    (fun g2 => ((nodes.filter (fun m => !(m.id = g2.id) && insideGroup g2 m)).map
        (fun m => (g2, m))).countP
        (fun pr => decide (pr.1.id = g.id) && decide (pr.2.id = n.id)))
    g hgroups hgmem hcnt
  rw [hsum]
  beta_reduce
  rw [List.countP_map]
  have hpr : ∀ b ∈ nodes.filter (fun m => !(m.id = g.id) && insideGroup g m),
      ((fun pr : RichNode × RichNode =>
        decide (pr.1.id = g.id) && decide (pr.2.id = n.id)) ∘ (fun m => (g, m))) b = true
      ↔ (fun m => decide (m.id = n.id)) b = true := by
    intro b _
    simp [Function.comp]
  rw [List.countP_congr hpr, List.countP_filter]
  have hmain := countP_id_and
    (fun m : RichNode => !(m.id = g.id) && insideGroup g m)
    (fun m : RichNode => m.id) hnd hn
  have hqn : (!(decide (n.id = g.id)) && insideGroup g n) = insideGroup g n := by
    simp [hne]
  rw [hmain]
  beta_reduce
  rw [hqn]
  by_cases hin : g.x ≤ centerX n ∧ g.y ≤ centerY n
      ∧ centerX n ≤ g.x + g.width ∧ centerY n ≤ g.y + g.height
  · rw [if_pos hin]
    have : insideGroup g n = true := by
      unfold insideGroup
      simp only [Bool.and_eq_true, decide_eq_true_eq]
      exact ⟨⟨⟨hin.1, hin.2.1⟩, hin.2.2.1⟩, hin.2.2.2⟩
    rw [if_pos this]
  · rw [if_neg hin]
    have : ¬(insideGroup g n = true) := by
      unfold insideGroup
      simp only [Bool.and_eq_true, decide_eq_true_eq]
      intro hc
      exact hin ⟨hc.1.1.1, hc.1.1.2, hc.1.2, hc.2⟩
    rw [if_neg this]

/-- Witness for C9: a node whose center coincides with the top-left corner
    of a group is contained, and a node inside two overlapping groups gets
    one contains edge per group. -/
theorem c9_containment_witness :
    ((c9Nodes.map (fun m => m.id)).Nodup ∧ gA ∈ c9Nodes ∧ gA.ntype = tGroup
      ∧ nC ∈ c9Nodes ∧ nC.id ≠ gA.id
      ∧ (gA.x ≤ centerX nC ∧ gA.y ≤ centerY nC
          ∧ centerX nC ≤ gA.x + gA.width ∧ centerY nC ≤ gA.y + gA.height)
      ∧ centerX nC = gA.x ∧ centerY nC = gA.y)
    ∧ (deriveGroupEdges genW c9Nodes).countP
        (fun e => decide (e.fromNode = gA.id) && decide (e.toNode = nC.id)
          && decide (e.label = some sContains))
      = (if gA.x ≤ centerX nC ∧ gA.y ≤ centerY nC
          ∧ centerX nC ≤ gA.x + gA.width ∧ centerY nC ≤ gA.y + gA.height
         then 1 else 0)
    ∧ (deriveGroupEdges genW c9Nodes).countP
        (fun e => decide (e.fromNode = gB.id) && decide (e.toNode = nC.id)
          && decide (e.label = some sContains))
      = (if gB.x ≤ centerX nC ∧ gB.y ≤ centerY nC
          ∧ centerX nC ≤ gB.x + gB.width ∧ centerY nC ≤ gB.y + gB.height
         then 1 else 0) := by
  refine ⟨⟨?_, ?_, ?_, ?_, ?_, ?_, ?_, ?_⟩, ?_, ?_⟩
  · decide
  · exact List.mem_cons_self gA [gB, nC]
  · decide
  · exact List.mem_cons_of_mem gA (List.mem_cons_of_mem gB (List.mem_cons_self nC []))
  · decide
  · refine ⟨?_, ?_, ?_, ?_⟩ <;> norm_num [centerX, centerY, gA, nC, richNodeOf]
  · norm_num [centerX, gA, nC, richNodeOf]
  · norm_num [centerY, gA, nC, richNodeOf]
  · exact c9_containment genW c9Nodes gA nC (by decide)
      (List.mem_cons_self gA [gB, nC]) (by decide)
      (List.mem_cons_of_mem gA (List.mem_cons_of_mem gB (List.mem_cons_self nC [])))
      (by decide)
  · exact c9_containment genW c9Nodes gB nC (by decide)
      (List.mem_cons_of_mem gA (List.mem_cons_self gB [nC])) (by decide)
      (List.mem_cons_of_mem gA (List.mem_cons_of_mem gB (List.mem_cons_self nC [])))
      (by decide)


/- ---------- streamer helper lemmas ---------- -/

theorem processChunk_ops (gen : Nat → Chars) (st : StreamState) (chunk : Chars) :
    (processChunk gen st chunk).2 =
        (extractCompletedOperations gen (st.buffer ++ chunk) st.edgeCtr).1
    ∧ (processChunk gen st chunk).1.buffer =
        (extractCompletedOperations gen (st.buffer ++ chunk) st.edgeCtr).2.1
    ∧ (processChunk gen st chunk).1.edgeCtr =
        (extractCompletedOperations gen (st.buffer ++ chunk) st.edgeCtr).2.2 :=
  ⟨rfl, rfl, rfl⟩

theorem passLoop_all (tag : Chars) (build : List (Chars × Chars) → Nat → Option COp × Nat)
    (P : COp → Prop)
    (hb : ∀ attrs ctr op ctr2, build attrs ctr = (some op, ctr2) → P op) :
    ∀ (fuel lastIdx : Nat) (buf : Chars) (ctr : Nat) (acc : List COp),
      (∀ op ∈ acc, P op) →
      ∀ op ∈ (passLoop tag build fuel lastIdx buf ctr acc).1, P op := by
  intro fuel
  induction fuel with
  | zero => intro lastIdx buf ctr acc hacc; exact hacc
  | succ fuel ih =>
    intro lastIdx buf ctr acc hacc
    rw [passLoop]
    split
    · exact hacc
    · split
      · rename_i op1 ctr2 hbuild
        refine ih 0 _ ctr2 (acc ++ [op1]) ?_
        intro op2 hop2
        rcases List.mem_append.mp hop2 with h1 | h1
        · exact hacc op2 h1
        · rcases List.mem_singleton.mp h1 with rfl
          exact hb _ _ _ _ hbuild
      · rename_i ctr2 hbuild
        exact ih _ buf ctr2 acc hacc

theorem passContentLoop_all (P : COp → Prop)
    (hb : ∀ attrs inner op, buildAddNode attrs (some inner) = some op → P op) :
    ∀ (fuel lastIdx : Nat) (buf : Chars) (acc : List COp),
      (∀ op ∈ acc, P op) →
      ∀ op ∈ (passContentLoop fuel lastIdx buf acc).1, P op := by
  intro fuel
  induction fuel with
  | zero => intro lastIdx buf acc hacc; exact hacc
  | succ fuel ih =>
    intro lastIdx buf acc hacc
    rw [passContentLoop]
    split
    · exact hacc
    · split
      · rename_i op1 hbuild
        refine ih 0 _ (acc ++ [op1]) ?_
        intro op2 hop2
        rcases List.mem_append.mp hop2 with h1 | h1
        · exact hacc op2 h1
        · rcases List.mem_singleton.mp h1 with rfl
          exact hb _ _ _ hbuild
      · rename_i hbuild
        exact ih _ buf acc hacc

theorem buildAddNode_kind (attrs : List (Chars × Chars)) (inner : Option Chars)
    (op : COp) (h : buildAddNode attrs inner = some op) : opKind op = 0 := by
  unfold buildAddNode at h
  rcases h1 : attrTruthy attrs kId with _ | i <;>
    rcases h2 : attrTruthy attrs kType with _ | t <;>
      rw [h1, h2] at h <;>
      first
        | (injection h with h; subst h; rfl)
        | injection h

theorem buildUpdateNode_kind (attrs : List (Chars × Chars))
    (op : COp) (h : buildUpdateNode attrs = some op) : opKind op = 1 := by
  unfold buildUpdateNode at h
  rcases h1 : attrTruthy attrs kId with _ | i <;> rw [h1] at h
  · cases h
  · injection h with h; subst h; rfl

theorem buildDeleteNode_kind (attrs : List (Chars × Chars))
    (op : COp) (h : buildDeleteNode attrs = some op) : opKind op = 2 := by
  unfold buildDeleteNode at h
  rcases h1 : attrTruthy attrs kId with _ | i <;> rw [h1] at h
  · cases h
  · injection h with h; subst h; rfl

theorem buildAddEdge_kind (gen : Nat → Chars) (attrs : List (Chars × Chars))
    (ctr : Nat) (op : COp) (ctr2 : Nat)
    (h : buildAddEdge gen attrs ctr = (some op, ctr2)) : opKind op = 3 := by
  unfold buildAddEdge at h
  rcases h1 : attrTruthy attrs kFrom with _ | f <;>
    rcases h2 : attrTruthy attrs kTo with _ | t <;>
      rw [h1, h2] at h
  · injection h with ha _; cases ha
  · injection h with ha _; cases ha
  · injection h with ha _; cases ha
  · rcases h3 : attrTruthy attrs kId with _ | i <;> rw [h3] at h <;>
      (injection h with ha _; injection ha with ha; subst ha; rfl)

theorem buildDeleteEdge_kind (attrs : List (Chars × Chars))
    (op : COp) (h : buildDeleteEdge attrs = some op) : opKind op = 4 := by
  unfold buildDeleteEdge at h
  rcases h1 : attrTruthy attrs kId with _ | i <;> rw [h1] at h
  · cases h
  · injection h with h; subst h; rfl

/- ---------- claim C5: shape-priority emission order ---------- -/

/-- C5.  Within one extraction call the emitted operations come grouped by
    tag shape in the fixed priority order: first the add_node shapes (paired
    form then self-closing form), then update_node, delete_node, add_edge
    and delete_edge; in particular a delete_node written before an
    update_node in the buffer is emitted after it. -/
theorem c5_shape_priority :
    (∀ (gen : Nat → Chars) (buf : Chars) (ctr : Nat),
      ∃ l1 l2 l3 l4 l5 l6,
        (extractCompletedOperations gen buf ctr).1 = l1 ++ l2 ++ l3 ++ l4 ++ l5 ++ l6
        ∧ (∀ op ∈ l1, opKind op = 0) ∧ (∀ op ∈ l2, opKind op = 0)
        ∧ (∀ op ∈ l3, opKind op = 1) ∧ (∀ op ∈ l4, opKind op = 2)
        ∧ (∀ op ∈ l5, opKind op = 3) ∧ (∀ op ∈ l6, opKind op = 4))
    ∧ (extractCompletedOperations genW c5Buf 0).1 =
        [COp.updateNode (("u").toList)
          ⟨some (some 5), none, none, none, none, none, none⟩,
         COp.deleteNode (("d").toList)] := by
  constructor
  · intro gen buf ctr
    refine ⟨_, _, _, _, _, _, rfl, ?_, ?_, ?_, ?_, ?_, ?_⟩
    · exact passContentLoop_all (fun op => opKind op = 0)
        (fun attrs inner op h => buildAddNode_kind attrs (some inner) op h)
        _ 0 buf [] (by intro op h; cases h)
    · exact passLoop_all tagAddNode _ (fun op => opKind op = 0)
        (fun attrs ctr op ctr2 h => by
          unfold liftB at h
          injection h with ha _
          exact buildAddNode_kind attrs none op ha)
        _ 0 _ _ [] (by intro op h; cases h)
    · exact passLoop_all tagUpdateNode _ (fun op => opKind op = 1)
        (fun attrs ctr op ctr2 h => by
          unfold liftB at h
          injection h with ha _
          exact buildUpdateNode_kind attrs op ha)
        _ 0 _ _ [] (by intro op h; cases h)
    · exact passLoop_all tagDeleteNode _ (fun op => opKind op = 2)
        (fun attrs ctr op ctr2 h => by
          unfold liftB at h
          injection h with ha _
          exact buildDeleteNode_kind attrs op ha)
        _ 0 _ _ [] (by intro op h; cases h)
    · exact passLoop_all tagAddEdge _ (fun op => opKind op = 3)
        (fun attrs ctr op ctr2 h => buildAddEdge_kind gen attrs ctr op ctr2 h)
        _ 0 _ _ [] (by intro op h; cases h)
    · exact passLoop_all tagDeleteEdge _ (fun op => opKind op = 4)
        (fun attrs ctr op ctr2 h => by
          unfold liftB at h
          injection h with ha _
          exact buildDeleteEdge_kind attrs op ha)
        _ 0 _ _ [] (by intro op h; cases h)
  · decide


/- ---------- claim C6: numeric attribute fallback ---------- -/

/-- C6 counterexample: an add_node tag whose x attribute is the unparsable
    string abc yields an operation whose x field is NaN (modelled as none),
    which is not the claimed default 0 nor any other integer. -/
theorem c6_counterexample :
    (extractCompletedOperations genW c6Buf 0).1 =
      [COp.addNode (("a").toList) tText none (some 0) (some 200) (some 100)
        none none none none none]
    ∧ opX (COp.addNode (("a").toList) tText none (some 0) (some 200) (some 100)
        none none none none none) = some none
    ∧ ∀ z : Int, (none : Option Int) ≠ some z := by
  refine ⟨by decide, rfl, ?_⟩
  intro z h
  cases h

/-- C6 amended.  For every parsed add_node operation (paired or
    self-closing form) the numeric fields are the JS parseInt of the
    attribute value with the textual default substituted only when the
    attribute is absent or empty: an absent or empty attribute yields the
    defaults x=0, y=0, width=200, height=100, while a present nonempty
    attribute yields parseInt of its value, which is NaN (not the default)
    when the value has no leading integer. -/
theorem c6_numeric_attr_amended (attrs : List (Chars × Chars)) (inner : Option Chars)
    (op : COp) (h : buildAddNode attrs inner = some op) :
    opX op = some (jsParseInt ((attrTruthy attrs kX).getD sZero))
    ∧ opY op = some (jsParseInt ((attrTruthy attrs kY).getD sZero))
    ∧ opW op = some (jsParseInt ((attrTruthy attrs kWidth).getD sTwoHundred))
    ∧ opH op = some (jsParseInt ((attrTruthy attrs kHeight).getD sHundred))
    ∧ (attrTruthy attrs kX = none → opX op = some (some 0))
    ∧ (attrTruthy attrs kY = none → opY op = some (some 0))
    ∧ (attrTruthy attrs kWidth = none → opW op = some (some 200))
    ∧ (attrTruthy attrs kHeight = none → opH op = some (some 100))
    ∧ (∀ v, attrTruthy attrs kX = some v → opX op = some (jsParseInt v))
    ∧ (∀ v, attrTruthy attrs kY = some v → opY op = some (jsParseInt v))
    ∧ (∀ v, attrTruthy attrs kWidth = some v → opW op = some (jsParseInt v))
    ∧ (∀ v, attrTruthy attrs kHeight = some v → opH op = some (jsParseInt v)) := by
  have hx0 : jsParseInt sZero = some 0 := by decide
  have hw0 : jsParseInt sTwoHundred = some 200 := by decide
  have hh0 : jsParseInt sHundred = some 100 := by decide
  unfold buildAddNode at h
  rcases h1 : attrTruthy attrs kId with _ | i <;> rw [h1] at h
  · cases h
  · rcases h2 : attrTruthy attrs kType with _ | t <;> rw [h2] at h
    · cases h
    · injection h with h
      subst h
      refine ⟨rfl, rfl, rfl, rfl, ?_, ?_, ?_, ?_, ?_, ?_, ?_, ?_⟩
      · intro he; simp [opX, he, hx0]
      · intro he; simp [opY, he, hx0]
      · intro he; simp [opW, he, hw0]
      · intro he; simp [opH, he, hh0]
      · intro v he; simp [opX, he]
      · intro v he; simp [opY, he]
      · intro v he; simp [opW, he]
      · intro v he; simp [opH, he]

/-- Witness for the amended C6: with only id and type present all four
    numeric fields take their defaults. -/
theorem c6_numeric_attr_amended_witness :
    (buildAddNode c6Attrs none =
      some (COp.addNode (("a").toList) tText (some 0) (some 0) (some 200) (some 100)
        none none none none none))
    ∧ (opX (COp.addNode (("a").toList) tText (some 0) (some 0) (some 200) (some 100)
          none none none none none)
        = some (jsParseInt ((attrTruthy c6Attrs kX).getD sZero))
      ∧ opY (COp.addNode (("a").toList) tText (some 0) (some 0) (some 200) (some 100)
          none none none none none)
        = some (jsParseInt ((attrTruthy c6Attrs kY).getD sZero))
      ∧ opW (COp.addNode (("a").toList) tText (some 0) (some 0) (some 200) (some 100)
          none none none none none)
        = some (jsParseInt ((attrTruthy c6Attrs kWidth).getD sTwoHundred))
      ∧ opH (COp.addNode (("a").toList) tText (some 0) (some 0) (some 200) (some 100)
          none none none none none)
        = some (jsParseInt ((attrTruthy c6Attrs kHeight).getD sHundred))
      ∧ (attrTruthy c6Attrs kX = none →
          opX (COp.addNode (("a").toList) tText (some 0) (some 0) (some 200) (some 100)
            none none none none none) = some (some 0))
      ∧ (attrTruthy c6Attrs kY = none →
          opY (COp.addNode (("a").toList) tText (some 0) (some 0) (some 200) (some 100)
            none none none none none) = some (some 0))
      ∧ (attrTruthy c6Attrs kWidth = none →
          opW (COp.addNode (("a").toList) tText (some 0) (some 0) (some 200) (some 100)
            none none none none none) = some (some 200))
      ∧ (attrTruthy c6Attrs kHeight = none →
          opH (COp.addNode (("a").toList) tText (some 0) (some 0) (some 200) (some 100)
            none none none none none) = some (some 100))
      ∧ (∀ v, attrTruthy c6Attrs kX = some v →
          opX (COp.addNode (("a").toList) tText (some 0) (some 0) (some 200) (some 100)
            none none none none none) = some (jsParseInt v))
      ∧ (∀ v, attrTruthy c6Attrs kY = some v →
          opY (COp.addNode (("a").toList) tText (some 0) (some 0) (some 200) (some 100)
            none none none none none) = some (jsParseInt v))
      ∧ (∀ v, attrTruthy c6Attrs kWidth = some v →
          opW (COp.addNode (("a").toList) tText (some 0) (some 0) (some 200) (some 100)
            none none none none none) = some (jsParseInt v))
      ∧ (∀ v, attrTruthy c6Attrs kHeight = some v →
          opH (COp.addNode (("a").toList) tText (some 0) (some 0) (some 200) (some 100)
            none none none none none) = some (jsParseInt v))) :=
  ⟨by decide,
   c6_numeric_attr_amended c6Attrs none
     (COp.addNode (("a").toList) tText (some 0) (some 0) (some 200) (some 100)
       none none none none none) (by decide)⟩


/- ---------- claim C1: boundary insensitivity ---------- -/

/-- C1 counterexample: the text of a self-closing add_node directly
    followed by a paired add_node yields one merged operation when fed in
    a single call (the greedy paired pattern consumes both tags) but two
    operations when fed as two fragments, so the accumulated operations
    are not the same multiset. -/
theorem c1_counterexample :
    cxFragA ++ cxFragB = cxWholeS
    ∧ (processChunk genW initState cxWholeS).2.length = 1
    ∧ (feedMany genW initState [cxFragA, cxFragB]).2.length = 2
    ∧ ¬ ((feedMany genW initState [cxFragA, cxFragB]).2.Perm
          (processChunk genW initState cxWholeS).2) :=
  ⟨by decide, by decide, by decide, by decide⟩

theorem feedMany_quiet_aux (gen : Nat → Chars) (S : Chars)
    (hq : ∀ n, n < S.length →
      extractCompletedOperations gen (S.take n) 0 = ([], S.take n, 0)) :
    ∀ (frags : List Chars) (st : StreamState),
      frags ≠ [] → (∀ f ∈ frags, f ≠ []) →
      st.buffer ++ frags.flatten = S → st.edgeCtr = 0 →
      (feedMany gen st frags).2 = (extractCompletedOperations gen S 0).1 := by
  intro frags
  induction frags with
  | nil => intro st h; cases h rfl
  | cons f rest ih =>
    intro st _ hne hjoin hctr
    cases rest with
    | nil =>
      have hbf : st.buffer ++ f = S := by simpa using hjoin
      calc (feedMany gen st [f]).2
          = (processChunk gen st f).2 ++ (feedMany gen (processChunk gen st f).1 []).2 := rfl
        _ = (processChunk gen st f).2 := by simp [feedMany]
        _ = (extractCompletedOperations gen (st.buffer ++ f) st.edgeCtr).1 :=
            (processChunk_ops gen st f).1
        _ = (extractCompletedOperations gen S 0).1 := by rw [hbf, hctr]
    | cons g rest2 =>
      have hg : g ≠ [] := hne g (List.mem_cons_of_mem f (List.mem_cons_self g rest2))
      have hjoin' : (st.buffer ++ f) ++ (g :: rest2).flatten = S := by
        simpa [List.append_assoc] using hjoin
      have hjne : (g :: rest2).flatten ≠ [] := by
        simp only [List.flatten_cons]
        intro hcon
        exact hg (List.append_eq_nil.mp hcon).1
      have hlt : (st.buffer ++ f).length < S.length := by
        rw [← hjoin']
        simp only [List.length_append]
        have : 0 < (g :: rest2).flatten.length := List.length_pos.mpr hjne
        omega
      have htake : S.take (st.buffer ++ f).length = st.buffer ++ f := by
        rw [← hjoin']
        exact List.take_left _ _
      have hqf := hq _ hlt
      rw [htake] at hqf
      have hops : (processChunk gen st f).2 = [] := by
        rw [(processChunk_ops gen st f).1, hctr, hqf]
      have hbuf2 : (processChunk gen st f).1.buffer = st.buffer ++ f := by
        rw [(processChunk_ops gen st f).2.1, hctr, hqf]
      have hctr2 : (processChunk gen st f).1.edgeCtr = 0 := by
        rw [(processChunk_ops gen st f).2.2, hctr, hqf]
      have hrec := ih (processChunk gen st f).1 (by simp)
        (fun x hx => hne x (List.mem_cons_of_mem f hx))
        (by rw [hbuf2]; exact hjoin') hctr2
      calc (feedMany gen st (f :: g :: rest2)).2
          = (processChunk gen st f).2
            ++ (feedMany gen (processChunk gen st f).1 (g :: rest2)).2 := rfl
        _ = (extractCompletedOperations gen S 0).1 := by rw [hops, hrec]; rfl

/-- C1 amended.  Splitting a text into nonempty fragments and feeding them
    one call at a time yields, accumulated in order, exactly the
    operations of feeding the whole text in one call, provided extraction
    is quiescent on every proper prefix of the text (no prefix already
    completes a tag).  The unconditional claim is false: when a prefix
    completes a match that the whole text parses differently, the two runs
    disagree (see the counterexample). -/
theorem c1_boundary_insensitivity_amended (gen : Nat → Chars) (S : Chars)
    (frags : List Chars)
    (h1 : frags.flatten = S) (h2 : frags ≠ []) (h3 : ∀ f ∈ frags, f ≠ [])
    (hq : ∀ n, n < S.length →
      extractCompletedOperations gen (S.take n) 0 = ([], S.take n, 0)) :
    (feedMany gen initState frags).2 = (processChunk gen initState S).2 := by
  have hrhs : (processChunk gen initState S).2 =
      (extractCompletedOperations gen S 0).1 :=
    (processChunk_ops gen initState S).1
  rw [hrhs]
  exact feedMany_quiet_aux gen S hq frags initState h2 h3 (by simpa using h1) rfl

/-- Witness for the amended C1: a delete_node tag split in the middle of
    its name is reassembled and yields the operation exactly once. -/
theorem c1_boundary_insensitivity_amended_witness :
    ([wFragA, wFragB].flatten = wSplitS
     ∧ ([wFragA, wFragB] : List Chars) ≠ []
     ∧ (∀ f ∈ ([wFragA, wFragB] : List Chars), f ≠ [])
     ∧ (∀ n, n < wSplitS.length →
          extractCompletedOperations genW (wSplitS.take n) 0 = ([], wSplitS.take n, 0)))
    ∧ (feedMany genW initState [wFragA, wFragB]).2 =
        (processChunk genW initState wSplitS).2
    ∧ (processChunk genW initState wSplitS).2 = [COp.deleteNode (("a").toList)] :=
  ⟨⟨by decide, by decide, by decide, by decide⟩,
   c1_boundary_insensitivity_amended genW wSplitS [wFragA, wFragB]
     (by decide) (by decide) (by decide) (by decide),
   by decide⟩

end CanvasCopilot
